import Mathlib

/-!
Verification of the poker engine: hand evaluator (hand-evaluator.js), game
state machine (poker-engine.js) and decision agent.

Modelling conventions:
* JavaScript numbers are modelled exactly: card values and hand ranks are
  integers (`Int`); chip stacks, pot sizes and the heuristic hand-strength
  scalar are rationals (`ℚ`), since the agent produces fractional bet sizes.
* A JavaScript stable `Array.prototype.sort(cmp)` (stable per ES2019, and all
  comparators in this code are consistent) is modelled by the stable
  `List.insertionSort` with the corresponding relation: for a consistent
  comparator every stable sort produces the same list.
* `[...new Set(xs)]` preserves first-occurrence order; where the result is
  sorted immediately afterwards we use `List.dedup` (same element set) and
  where the order is kept we use `firstDedup` below.
* JavaScript object key enumeration is numeric-ascending for integer keys
  (rank-count tables) and insertion-ordered for string keys (suit groups);
  both are modelled by explicit association lists in that key order.
* Fallible operations (functions that can return null / crash on a null
  dereference) return `Option`.
-/

/-- The four suits; the source uses the strings hearts/diamonds/clubs/spades. -/
inductive Suit where
  | hearts | diamonds | clubs | spades
deriving DecidableEq, Repr

/-- A playing card as the engine builds it: `value` is the numeric rank
(2..14, Ace high) and `suit` the suit.  The purely presentational fields
(`rank` string, `id`, `unicode`) are omitted; `value` determines them. -/
structure Card where
  value : Int
  suit : Suit
deriving DecidableEq, Repr

/-- The evaluator's internal card format produced in `evaluateHand`:
`{ rank: card.value, suit: card.suit }` (the unused `rankChar` is omitted). -/
structure ECard where
  rank : Int
  suit : Suit
deriving DecidableEq, Repr

/-- A hand evaluation result: category rank 1..10, display name, the ordered
kicker sequence and the contributing cards. -/
structure HandResult where
  rank : Int
  name : String
  kickers : List Int
  cards : List ECard
deriving DecidableEq, Repr

instance : Inhabited HandResult := ⟨⟨0, "", [], []⟩⟩

/-- Descending order on evaluator cards, the relation of the comparator
`(a, b) => b.rank - a.rank` used throughout the evaluator. -/
def rankDescOrder (a b : ECard) : Prop := b.rank ≤ a.rank

instance : DecidableRel rankDescOrder :=
  fun a b => inferInstanceAs (Decidable (b.rank ≤ a.rank))

instance : IsTotal ECard rankDescOrder :=
  ⟨fun a b => le_total b.rank a.rank⟩

instance : IsTrans ECard rankDescOrder :=
  ⟨fun _ _ _ hab hbc => le_trans hbc hab⟩

/-- Descending order on integers, the relation of `(a, b) => b - a`. -/
def intDescOrder (a b : Int) : Prop := b ≤ a

instance : DecidableRel intDescOrder :=
  fun a b => inferInstanceAs (Decidable (b ≤ a))

instance : IsTotal Int intDescOrder := ⟨fun a b => le_total b a⟩

instance : IsTrans Int intDescOrder := ⟨fun _ _ _ hab hbc => le_trans hbc hab⟩

/-- Ascending order on integers, for numeric-ascending object-key enumeration. -/
def intAscOrder (a b : Int) : Prop := a ≤ b

instance : DecidableRel intAscOrder :=
  fun a b => inferInstanceAs (Decidable (a ≤ b))

instance : IsTotal Int intAscOrder := ⟨fun a b => le_total a b⟩

instance : IsTrans Int intAscOrder := ⟨fun _ _ _ hab hbc => le_trans hab hbc⟩

/-- First-occurrence deduplication, the order in which a JavaScript `Set` or
string-keyed object enumerates its keys. -/
def firstDedupAux [DecidableEq α] (seen : List α) : List α → List α
  | [] => []
  | a :: l => if a ∈ seen then firstDedupAux seen l else a :: firstDedupAux (a :: seen) l

/-- Keys of a JavaScript object in insertion order. -/
def firstDedup [DecidableEq α] (l : List α) : List α := firstDedupAux [] l

/-- `getRankCounts`: the `counts` object of rank → multiplicity, enumerated as
JavaScript does for integer keys: ascending numeric order. -/
def getRankCounts (cards : List ECard) : List (Int × Nat) :=
  (((cards.map (·.rank)).dedup).insertionSort intAscOrder).map
    fun r => (r, (cards.filter (·.rank = r)).length)

/-- `getFlushCards`: cards grouped by suit (object with string keys, i.e.
insertion order), each group sorted by rank descending. -/
def getFlushCards (cards : List ECard) : List (Suit × List ECard) :=
  (firstDedup (cards.map (·.suit))).map
    fun s => (s, (cards.filter (·.suit = s)).insertionSort rankDescOrder)

/-- The result of `findStraight`: the straight's high card and its cards. -/
structure StraightInfo where
  high : Int
  cards : List ECard
deriving DecidableEq, Repr

/-- `findStraight`.  The wheel (A-2-3-4-5) is checked first and reports
high = 5; otherwise the descending list of distinct ranks is scanned for five
consecutive ranks (`uniqueRanks[i] - uniqueRanks[i+4] === 4`).  The JS loop
bound `i <= uniqueRanks.length - 5` runs no iterations when the length is
below 5, which `List.range (length - 4)` reproduces via truncated subtraction.
The `cards.find` calls always succeed because the ranks searched for are taken
from the cards themselves; `filterMap` drops the impossible `none`s. -/
def findStraight (cards : List ECard) : Option StraightInfo :=
  let uniqueRanks := ((cards.map (·.rank)).dedup).insertionSort intDescOrder
  if 14 ∈ uniqueRanks ∧ 5 ∈ uniqueRanks ∧ 4 ∈ uniqueRanks ∧
      3 ∈ uniqueRanks ∧ 2 ∈ uniqueRanks then
    some { high := 5,
           cards := ([2, 3, 4, 5, 14] : List Int).filterMap
             fun r => cards.find? (·.rank = r) }
  else
    match (List.range (uniqueRanks.length - 4)).find?
        (fun i => uniqueRanks.getD i 0 - uniqueRanks.getD (i + 4) 0 = 4) with
    | some i =>
        let straightRanks := (uniqueRanks.drop i).take 5
        some { high := uniqueRanks.getD i 0,
               cards := straightRanks.filterMap fun r => cards.find? (·.rank = r) }
    | none => none

/-- Whether a suit group's top five ranks are exactly 14, 13, 12, 11, 10. -/
def royalRanks (suitCards : List ECard) : Bool :=
  ((suitCards.map (·.rank)).insertionSort intDescOrder).take 5 = [14, 13, 12, 11, 10]

/-- `checkRoyalFlush`.  (The source's early `flushCards.length < 5` test
compares the `length` property of a plain object, which is `undefined`, so it
never fires; it is omitted.) -/
def checkRoyalFlush (cards : List ECard) : Option HandResult :=
  match (getFlushCards cards).find? (fun g => decide (5 ≤ g.2.length) && royalRanks g.2) with
  | some g => some { rank := 10, name := "Royal Flush", kickers := [14], cards := g.2.take 5 }
  | none => none

/-- `checkStraightFlush`: the first suit group of size at least 5 that
contains a straight. -/
def checkStraightFlush (cards : List ECard) : Option HandResult :=
  match (getFlushCards cards).find?
      (fun g => decide (5 ≤ g.2.length) && (findStraight g.2).isSome) with
  | some g =>
    match findStraight g.2 with
    | some st => some { rank := 9, name := "Straight Flush", kickers := [st.high], cards := st.cards }
    | none => none
  | none => none

/-- `checkFourOfAKind`: the first (numerically lowest) rank with multiplicity
at least 4; kicker = first card of a different rank, or 0 when absent. -/
def checkFourOfAKind (cards : List ECard) : Option HandResult :=
  match (getRankCounts cards).find? (fun rc => decide (4 ≤ rc.2)) with
  | some rc =>
    let fourCards := cards.filter (·.rank = rc.1)
    let kicker := cards.find? (·.rank ≠ rc.1)
    some { rank := 8, name := "Four of a Kind",
           kickers := [rc.1, match kicker with | some k => k.rank | none => 0],
           cards := fourCards.take 4 ++ kicker.toList }
  | none => none

/-- `checkFullHouse`: first rank with count at least 3, then first different
rank with count at least 2. -/
def checkFullHouse (cards : List ECard) : Option HandResult :=
  match (getRankCounts cards).find? (fun rc => decide (3 ≤ rc.2)) with
  | none => none
  | some t =>
    match (getRankCounts cards).find? (fun rc => decide (rc.1 ≠ t.1) && decide (2 ≤ rc.2)) with
    | none => none
    | some p =>
      some { rank := 7, name := "Full House", kickers := [t.1, p.1],
             cards := (cards.filter (·.rank = t.1)).take 3 ++
                      (cards.filter (·.rank = p.1)).take 2 }

/-- `checkFlush`: the first suit group with at least five cards; its top five
cards (descending) are the hand. -/
def checkFlush (cards : List ECard) : Option HandResult :=
  match (getFlushCards cards).find? (fun g => decide (5 ≤ g.2.length)) with
  | some g =>
    let flushHand := g.2.take 5
    some { rank := 6, name := "Flush", kickers := flushHand.map (·.rank), cards := flushHand }
  | none => none

/-- `checkStraight`. -/
def checkStraight (cards : List ECard) : Option HandResult :=
  match findStraight cards with
  | some st => some { rank := 5, name := "Straight", kickers := [st.high], cards := st.cards }
  | none => none

/-- `checkThreeOfAKind`. -/
def checkThreeOfAKind (cards : List ECard) : Option HandResult :=
  match (getRankCounts cards).find? (fun rc => decide (3 ≤ rc.2)) with
  | some rc =>
    let threeCards := (cards.filter (·.rank = rc.1)).take 3
    let kickers := ((cards.filter (·.rank ≠ rc.1)).insertionSort rankDescOrder).take 2
    some { rank := 4, name := "Three of a Kind",
           kickers := rc.1 :: kickers.map (·.rank),
           cards := threeCards ++ kickers }
  | none => none

/-- `checkTwoPair`: ranks with count at least 2, sorted descending; the two
highest are the pairs, the kicker is the first other card (or 0). -/
def checkTwoPair (cards : List ECard) : Option HandResult :=
  let pairs := (((getRankCounts cards).filter (fun rc => decide (2 ≤ rc.2))).map (·.1)).insertionSort intDescOrder
  match pairs with
  | highPair :: lowPair :: _ =>
    let kicker := cards.find? (fun c => c.rank ≠ highPair ∧ c.rank ≠ lowPair)
    some { rank := 3, name := "Two Pair",
           kickers := [highPair, lowPair, match kicker with | some k => k.rank | none => 0],
           cards := (cards.filter (·.rank = highPair)).take 2 ++
                    (cards.filter (·.rank = lowPair)).take 2 ++ kicker.toList }
  | _ => none

/-- `checkPair`. -/
def checkPair (cards : List ECard) : Option HandResult :=
  match (getRankCounts cards).find? (fun rc => decide (2 ≤ rc.2)) with
  | some rc =>
    let pairCards := (cards.filter (·.rank = rc.1)).take 2
    let kickers := ((cards.filter (·.rank ≠ rc.1)).insertionSort rankDescOrder).take 3
    some { rank := 2, name := "Pair",
           kickers := rc.1 :: kickers.map (·.rank),
           cards := pairCards ++ kickers }
  | none => none

/-- `checkHighCard`: always succeeds; top five cards descending. -/
def checkHighCard (cards : List ECard) : HandResult :=
  let sortedCards := (cards.insertionSort rankDescOrder).take 5
  { rank := 1, name := "High Card", kickers := sortedCards.map (·.rank), cards := sortedCards }

/-- `evaluateHand`: convert to evaluation format sorted by rank descending,
then try each category from strongest to weakest; the first match wins. -/
def evaluateHand (cards : List Card) : HandResult :=
  let evalCards :=
    (cards.map fun c => ({ rank := c.value, suit := c.suit } : ECard)).insertionSort rankDescOrder
  match checkRoyalFlush evalCards with
  | some h => h
  | none =>
  match checkStraightFlush evalCards with
  | some h => h
  | none =>
  match checkFourOfAKind evalCards with
  | some h => h
  | none =>
  match checkFullHouse evalCards with
  | some h => h
  | none =>
  match checkFlush evalCards with
  | some h => h
  | none =>
  match checkStraight evalCards with
  | some h => h
  | none =>
  match checkThreeOfAKind evalCards with
  | some h => h
  | none =>
  match checkTwoPair evalCards with
  | some h => h
  | none =>
  match checkPair evalCards with
  | some h => h
  | none => checkHighCard evalCards

/-- The loop of `compareKickers`: compare padded kicker entries from index
`i` for `n` more steps; `kickers[i] || 0` pads a missing entry with 0. -/
def ckLoop (k1 k2 : List Int) : Nat → Nat → Int
  | _, 0 => 0
  | i, n + 1 =>
    let a := k1.getD i 0
    let b := k2.getD i 0
    if a ≠ b then a - b else ckLoop k1 k2 (i + 1) n

/-- `compareKickers`: lexicographic comparison of the kicker sequences, the
first differing (0-padded) entry decides; exhausted-equal is 0. -/
def compareKickers (hand1 hand2 : HandResult) : Int :=
  ckLoop hand1.kickers hand2.kickers 0 (max hand1.kickers.length hand2.kickers.length)

/-- `compareHands`: category rank difference first, kickers on a tie. -/
def compareHands (hand1 hand2 : HandResult) : Int :=
  if hand1.rank ≠ hand2.rank then hand1.rank - hand2.rank
  else compareKickers hand1 hand2

/-- `generateCombinations`.  The JS special cases: `k === 1` yields
singletons, `k === cards.length` yields the whole list, and a loop bound
`i <= cards.length - k` that runs no iterations when negative (reproduced by
truncated subtraction).  For `k = 0` on a nonempty list the JS recursion
would not terminate; that case is unreachable (the evaluator only calls
`k = 5`) and is modelled as `[]`. -/
def generateCombinations : List Card → Nat → List (List Card)
  | cards, 0 => if cards.length = 0 then [cards] else []
  | cards, k + 1 =>
    if k + 1 = 1 then cards.map fun c => [c]
    else if k + 1 = cards.length then [cards]
    else
      (List.range (cards.length + 1 - (k + 1))).flatMap fun i =>
        match cards.drop i with
        | [] => []
        | c :: rest => (generateCombinations rest k).map fun combo => c :: combo

/-- The update condition of the `getBestFiveCardHand` loop:
`handResult.rank > bestRank || (handResult.rank === bestRank &&
compareKickers(handResult, bestHand) > 0)`.  When `bestHand` is still null
the second disjunct would dereference null in JS; it is unreachable because
every evaluated rank is at least 1 > 0, and is modelled as no update. -/
def betterThan (handResult : HandResult) (bestHand : Option HandResult) (bestRank : Int) : Bool :=
  decide (bestRank < handResult.rank) ||
    (decide (handResult.rank = bestRank) &&
      match bestHand with
      | some b => decide (0 < compareKickers handResult b)
      | none => false)

/-- The `for (const combo of combinations)` loop of `getBestFiveCardHand`. -/
def bestLoop : Option HandResult → Int → List (List Card) → Option HandResult
  | bestHand, _, [] => bestHand
  | bestHand, bestRank, combo :: rest =>
    let handResult := evaluateHand combo
    if betterThan handResult bestHand bestRank then
      bestLoop (some handResult) handResult.rank rest
    else bestLoop bestHand bestRank rest

/-- `getBestFiveCardHand`: fewer than five cards are evaluated directly;
otherwise every 5-card combination is evaluated and the maximum kept.
`none` corresponds to the JS `null` initial value surviving the loop, which
happens only when the combination list is empty. -/
def getBestFiveCardHand (playerCards communityCards : List Card) : Option HandResult :=
  let allCards := playerCards ++ communityCards
  if allCards.length < 5 then some (evaluateHand allCards)
  else bestLoop none 0 (generateCombinations allCards 5)

/-- The `baseStrength` table of `getHandStrength`; ranks outside 1..10 are an
undefined lookup in JS and unreachable. -/
def baseStrength : Int → ℚ
  | 1 => 0
  | 2 => 2/10
  | 3 => 4/10
  | 4 => 55/100
  | 5 => 65/100
  | 6 => 72/100
  | 7 => 82/100
  | 8 => 91/100
  | 9 => 97/100
  | 10 => 1
  | _ => 0

/-- `getHandStrength`: per-category base value plus a kicker bonus of up to
0.05, clamped to 1.  The `none` branch is unreachable (the evaluator always
yields a hand). -/
def getHandStrength (playerCards communityCards : List Card) : ℚ :=
  match getBestFiveCardHand playerCards communityCards with
  | none => 0
  | some hand =>
    let strength := baseStrength hand.rank
    let strength :=
      if 0 < hand.kickers.length then
        strength + (hand.kickers.getD 0 0 : ℚ) / 14 * (5/100)
      else strength
    min strength 1

/-- The game phases of the state machine. -/
inductive Phase where
  | preflop | flop | turn | river | showdownPhase
deriving DecidableEq, Repr

/-- A seat, with the fields the engine mutates.  The presentational fields
(`name`, `position`) and the lazily attached `aiEngine` are omitted;
`personality` is the personality name string ("" for the human seat). -/
structure Player where
  id : Nat
  chips : ℚ
  cards : List Card
  currentBet : ℚ
  totalInvested : ℚ
  isAI : Bool
  isActive : Bool
  isAllIn : Bool
  isFolded : Bool
  personality : String
deriving DecidableEq, Repr

/-- The engine state relevant to blinds, betting and showdown.  Purely
presentational state (UI flags, statistics) is omitted. -/
structure GameState where
  players : List Player
  pot : ℚ
  dealerPosition : Nat
  smallBlind : ℚ
  bigBlind : ℚ
  communityCards : List Card
  currentPlayerIndex : Nat
  gamePhase : Phase
deriving Repr

/-- A betting action; the raise amount travels as a separate argument. -/
inductive BetAction where
  | fold | check | call | raise
deriving DecidableEq, Repr

/-- `dealCard`: null (here `none`) on an empty deck — the engine logs
"Cannot deal card - deck is empty" and refuses to produce a card — otherwise
`deck.pop()` removes and returns the top (last) card. -/
def dealCard (deck : List Card) : Option (Card × List Card) :=
  if deck.length = 0 then none
  else deck.getLast?.map fun c => (c, deck.dropLast)

/-- `postBlinds`: with fewer than two active players the hand cannot start
and nothing is posted.  Otherwise the seat after the dealer posts the small
blind and the next seat the big blind, each only if that seat is active, each
clamped to the poster's stack; both are written (not added) to the poster's
current bet and total invested, which the caller has just reset to zero.
Finally the first actor is set to three seats after the dealer.  The two
posting blocks of the source are identical up to naming and are shared as
`postOneBlind`; the index-miss branch is unreachable because the indices are
reduced mod the seat count. -/
def postOneBlind (t : GameState) (idx : Nat) (blind : ℚ) : GameState :=
  match t.players[idx]? with
  | some poster =>
    if poster.isActive then
      let amount := min blind poster.chips
      { t with
        players := t.players.set idx
          { poster with
            chips := poster.chips - amount,
            currentBet := amount,
            totalInvested := amount },
        pot := t.pot + amount }
    else t
  | none => t

def postBlinds (s : GameState) : GameState :=
  if (s.players.filter (·.isActive)).length < 2 then s
  else
    let n := s.players.length
    let s1 := postOneBlind s ((s.dealerPosition + 1) % n) s.smallBlind
    let s2 := postOneBlind s1 ((s.dealerPosition + 2) % n) s1.bigBlind
    { s2 with currentPlayerIndex := (s.dealerPosition + 3) % n }

/-- `getCurrentBet`: `Math.max` over every seat's current-round bet.  On an
empty seat list JS would give -Infinity; the engine always has seats. -/
def getCurrentBet (s : GameState) : ℚ :=
  match s.players.map (·.currentBet) with
  | [] => 0
  | b :: bs => bs.foldl max b

/-- The chip-moving switch of `executePlayerAction`, acting on the seat at
index `i` (the JS function receives the player object itself; the subsequent
turn advancement moves no chips and is not part of this step). -/
def executePlayerAction (s : GameState) (i : Nat) (action : BetAction) (amount : ℚ) : GameState :=
  match s.players[i]? with
  | none => s
  | some player =>
    match action with
    | BetAction.fold =>
      { s with players := s.players.set i { player with isFolded := true } }
    | BetAction.check => s
    | BetAction.call =>
      let callAmount := getCurrentBet s - player.currentBet
      let actualCall := min callAmount player.chips
      let p1 := { player with
        chips := player.chips - actualCall,
        currentBet := player.currentBet + actualCall,
        totalInvested := player.totalInvested + actualCall }
      let p2 := if p1.chips = 0 then { p1 with isAllIn := true } else p1
      { s with players := s.players.set i p2, pot := s.pot + actualCall }
    | BetAction.raise =>
      let currentBet := getCurrentBet s
      let raiseCallAmount := currentBet - player.currentBet
      let totalRaise := raiseCallAmount + amount
      let actualRaise := min totalRaise player.chips
      let p1 := { player with
        chips := player.chips - actualRaise,
        currentBet := player.currentBet + actualRaise,
        totalInvested := player.totalInvested + actualRaise }
      let p2 := if p1.chips = 0 then { p1 with isAllIn := true } else p1
      { s with players := s.players.set i p2, pot := s.pot + actualRaise }

/-- `isBettingRoundComplete`: at most one non-folded active seat, or every
such seat has matched the round's maximum bet or is all-in. -/
def isBettingRoundComplete (s : GameState) : Bool :=
  let activePlayers := s.players.filter fun p => p.isActive && !p.isFolded
  if activePlayers.length ≤ 1 then true
  else
    let currentBet := getCurrentBet s
    activePlayers.all fun p => decide (p.currentBet = currentBet) || p.isAllIn

/-- `awardPot`: the winner (by seat index) receives the whole pot, which is
then zeroed.  The statistics bookkeeping for the human seat is omitted. -/
def awardPot (s : GameState) (i : Nat) : GameState :=
  match s.players[i]? with
  | some winner =>
    { s with
      players := s.players.set i { winner with chips := winner.chips + s.pot },
      pot := 0 }
  | none => s

/-- `Math.floor` on a rational. -/
def jsFloor (q : ℚ) : ℚ := (⌊q⌋ : ℚ)

/-- The non-folded active seats paired with their seat indices (the JS code
works with the player objects; indices stand for object identity). -/
def contendersOf (s : GameState) : List (Nat × Player) :=
  s.players.enum.filter fun ip => ip.2.isActive && !ip.2.isFolded

/-- Descending order on (seat, hand) pairs, the relation of the comparator
`(a, b) => compareHands(b.hand, a.hand)` of `evaluateWinner`. -/
def handDescOrder (a b : Nat × HandResult) : Prop := compareHands b.2 a.2 ≤ 0

instance : DecidableRel handDescOrder :=
  fun a b => inferInstanceAs (Decidable (compareHands b.2 a.2 ≤ 0))

/-- The `winners.forEach(w => w.player.chips += splitAmount)` loop. -/
def payWinners (players : List Player) (ws : List (Nat × HandResult)) (amt : ℚ) : List Player :=
  ws.foldl
    (fun pls w =>
      match pls[w.1]? with
      | some p => pls.set w.1 { p with chips := p.chips + amt }
      | none => pls)
    players

/-- `evaluateWinner`: evaluate every contender's best 5-of-7 hand, sort
descending, collect all hands tying the first (maximal) one; a single winner
takes the whole pot, several split `Math.floor(pot / winners.length)` each
and the pot is zeroed.  `none` models the JS crash on
`playerHands[0].hand` when called with no contenders.  The `[w] => awardPot`
branch is JS's `winners.length === 1` test; in the other branch an empty
`winners` list is unreachable (the maximal hand ties itself). -/
def evaluateWinner (s : GameState) (contenders : List (Nat × Player)) : Option GameState :=
  match contenders.mapM (fun ip =>
      (getBestFiveCardHand ip.2.cards s.communityCards).map fun h => (ip.1, h)) with
  | none => none
  | some playerHands =>
    match playerHands.insertionSort handDescOrder with
    | [] => none
    | best :: sortedRest =>
      let winners := (best :: sortedRest).filter fun ph => decide (compareHands ph.2 best.2 = 0)
      match winners with
      | [w] => some (awardPot s w.1)
      | ws =>
        let splitAmount := jsFloor (s.pot / (ws.length : ℚ))
        some { s with players := payWinners s.players ws splitAmount, pot := 0 }

/-- `showdown`: one remaining non-folded seat wins uncontested, otherwise the
contenders' hands are evaluated and compared. -/
def showdown (s : GameState) : Option GameState :=
  let s1 := { s with gamePhase := Phase.showdownPhase }
  let activePlayers := contendersOf s1
  match activePlayers with
  | [a] => some (awardPot s1 a.1)
  | as => evaluateWinner s1 as

/-- The conserved quantity of the chip-conservation claim: the sum of all
stacks plus the pot. -/
def chipMeasure (s : GameState) : ℚ := (s.players.map (·.chips)).sum + s.pot

/-- Specification-side view: a contender's best 5-of-7 hand (total, since the
evaluator never fails; `default` is unreachable). -/
def contenderHand (s : GameState) (ip : Nat × Player) : HandResult :=
  (getBestFiveCardHand ip.2.cards s.communityCards).getD default

/-- Specification-side view: the seats tied for the maximal hand under
`compareHands` — exactly the "winners" of the claim about showdown. -/
def specWinners (s : GameState) : List (Nat × Player) :=
  (contendersOf s).filter fun ip =>
    (contendersOf s).all fun jq =>
      decide (0 ≤ compareHands (contenderHand s ip) (contenderHand s jq))

/-- A personality profile from the static `PERSONALITIES` table. -/
structure Personality where
  name : String
  vpip : ℚ
  pfr : ℚ
  aggression : ℚ
  bluffFreq : ℚ
  callThreshold : ℚ
  raiseThreshold : ℚ
deriving Repr

/-- `PERSONALITIES.tight`. -/
def tightPersonality : Personality :=
  ⟨"Tight", 15/100, 12/100, 3/10, 5/100, 6/10, 8/10⟩

/-- `PERSONALITIES.loose`. -/
def loosePersonality : Personality :=
  ⟨"Loose", 35/100, 18/100, 4/10, 15/100, 3/10, 6/10⟩

/-- `PERSONALITIES.aggressive`. -/
def aggressivePersonality : Personality :=
  ⟨"Aggressive", 25/100, 22/100, 7/10, 25/100, 4/10, 5/10⟩

/-- `PERSONALITIES.passive`. -/
def passivePersonality : Personality :=
  ⟨"Passive", 28/100, 8/100, 2/10, 3/100, 35/100, 85/100⟩

/-- `PERSONALITIES.maniac`. -/
def maniacPersonality : Personality :=
  ⟨"Maniac", 45/100, 35/100, 9/10, 4/10, 25/100, 3/10⟩

/-- A difficulty profile from `DIFFICULTY_MODIFIERS`; `bluffDetection` is
defined but read nowhere. -/
structure Difficulty where
  skillMod : ℚ
  errorRate : ℚ
  bluffDetection : ℚ
deriving Repr

/-- `DIFFICULTY_MODIFIERS[3]` (Amateur), the engine default. -/
def difficulty3 : Difficulty := ⟨7/10, 15/100, 6/10⟩

/-- A decision agent instance: its personality and difficulty profiles.  The
mutable `handHistory` / `opponentModels` / `sessionStats` are only ever
written by `updateModels` and read by no decision path, so they are omitted. -/
structure PokerAI where
  personality : Personality
  difficulty : Difficulty
deriving Repr

/-- A returned decision: `amount` is `none` when the JS object carries no
`amount` property (the truthiness test `if (decision.amount)`). -/
structure Decision where
  action : BetAction
  amount : Option ℚ := none
  isBluff : Bool := false
deriving DecidableEq, Repr

/-- The game-state snapshot handed to `makeDecision`. -/
structure AIGameState where
  communityCards : List Card
  pot : ℚ
  currentBet : ℚ
  players : List Player
  gamePhase : Phase
  smallBlind : ℚ
  bigBlind : ℚ
deriving Repr

/-- An injectable stream of `Math.random()` draws in [0, 1); each call
consumes the next index. -/
abbrev Rng := Nat → ℚ

/-- `evaluatePocketPairs` (a pure function of the strength scalar). -/
def evaluatePocketPairs (handStrength : ℚ) : ℚ :=
  if 8/10 < handStrength then 1/10
  else if 6/10 < handStrength then 5/100
  else if 4/10 < handStrength then 2/100
  else 0

/-- `evaluateSuitedConnectors`. -/
def evaluateSuitedConnectors (handStrength : ℚ) : ℚ :=
  if 3/10 < handStrength ∧ handStrength < 7/10 then 5/100 else 0

/-- `calculateRaiseSize`: `(1 + strength·multiplier) · (1 + aggression·0.3)`,
with the per-phase multiplier table (`|| 0.7` default). -/
def calculateRaiseSize (ai : PokerAI) (handStrength : ℚ) (gamePhase : Phase) : ℚ :=
  let multiplier : ℚ :=
    match gamePhase with
    | Phase.preflop => 3
    | Phase.flop => 7/10
    | Phase.turn => 8/10
    | Phase.river => 9/10
    | _ => 7/10
  (1 + handStrength * multiplier) * (1 + ai.personality.aggression * (3/10))

/-- `getPreflopDecision`.  The `Math.random()` draw happens only when the
adjusted strength reaches the 0.4 tier (JS short-circuit). -/
def getPreflopDecision (ai : PokerAI) (handStrength callAmount playerChips : ℚ)
    (rng : Rng) (ix : Nat) : Decision × Nat :=
  let pocketPairStrength := evaluatePocketPairs handStrength
  let suitedConnectorStrength := evaluateSuitedConnectors handStrength
  let adjustedStrength := handStrength +
    (if 0 < pocketPairStrength then pocketPairStrength else 0)
  let adjustedStrength := adjustedStrength +
    (if 3/10 < ai.personality.vpip ∧ 0 < suitedConnectorStrength then
      suitedConnectorStrength * (1/10) else 0)
  if 8/10 ≤ adjustedStrength then
    ({ action := BetAction.raise,
       amount := some (min (callAmount * 3) (playerChips * (1/10))) }, ix)
  else if 6/10 ≤ adjustedStrength then
    (if callAmount = 0 then { action := BetAction.check } else { action := BetAction.call }, ix)
  else if 4/10 ≤ adjustedStrength then
    if rng ix < ai.personality.vpip then
      (if callAmount = 0 then { action := BetAction.check } else { action := BetAction.call }, ix + 1)
    else ({ action := BetAction.fold }, ix + 1)
  else ({ action := BetAction.fold }, ix)

/-- `getBaseDecision`: preflop table, else raise / call-check / fold by
thresholds and pot odds. -/
def getBaseDecision (ai : PokerAI) (handStrength potOdds : ℚ) (gamePhase : Phase)
    (callAmount playerChips : ℚ) (rng : Rng) (ix : Nat) : Decision × Nat :=
  if gamePhase = Phase.preflop then
    getPreflopDecision ai handStrength callAmount playerChips rng ix
  else if ai.personality.raiseThreshold ≤ handStrength then
    ({ action := BetAction.raise,
       amount := some (calculateRaiseSize ai handStrength gamePhase) }, ix)
  else if ai.personality.callThreshold ≤ handStrength ∨
      (0 < potOdds ∧ 1 - handStrength < potOdds * 2) then
    (if callAmount = 0 then { action := BetAction.check } else { action := BetAction.call }, ix)
  else ({ action := BetAction.fold }, ix)

/-- `applyPersonalityAdjustments`.  The aggression draw happens
unconditionally (JS evaluates `aggression > Math.random()` before the
`&&`). -/
def applyPersonalityAdjustments (ai : PokerAI) (decision : Decision) (handStrength : ℚ)
    (gs : AIGameState) (rng : Rng) (ix : Nat) : Decision × Nat :=
  let r := rng ix
  let decision :=
    if r < ai.personality.aggression ∧ decision.action = BetAction.call then
      if 1/2 < handStrength then
        { action := BetAction.raise,
          amount := some (calculateRaiseSize ai handStrength gs.gamePhase) }
      else decision
    else decision
  let decision :=
    if ai.personality.aggression < 3/10 ∧ decision.action = BetAction.raise then
      if handStrength < 9/10 then { action := BetAction.call } else decision
    else decision
  let decision :=
    if 1/2 < ai.personality.callThreshold ∧ handStrength < 6/10 then
      if decision.action ≠ BetAction.fold ∧ gs.pot * (3/10) < gs.currentBet then
        { action := BetAction.fold }
      else decision
    else decision
  (decision, ix + 1)

/-- `applyDifficultyAdjustments`: with probability `errorRate` substitute a
deliberately suboptimal action (each substitution returns immediately in JS);
otherwise — and also when the error fires but no substitution matches — scale
a truthy `amount` by `0.5 + skillMod·0.5`. -/
def applyDifficultyAdjustments (ai : PokerAI) (decision : Decision) (handStrength : ℚ)
    (rng : Rng) (ix : Nat) : Decision × Nat :=
  let r := rng ix
  let err := r < ai.difficulty.errorRate
  if err ∧ decision.action = BetAction.fold ∧ 3/5 < handStrength then
    ({ action := BetAction.call }, ix + 1)
  else if err ∧ decision.action = BetAction.raise ∧ handStrength < 2/5 then
    ({ action := BetAction.fold }, ix + 1)
  else if err ∧ decision.action = BetAction.call ∧ handStrength < 3/10 then
    ({ action := BetAction.fold }, ix + 1)
  else
    match decision.amount with
    | some a =>
      if a ≠ 0 then
        ({ decision with amount := some (a * (1/2 + ai.difficulty.skillMod * (1/2))) }, ix + 1)
      else (decision, ix + 1)
    | none => (decision, ix + 1)

/-- `checkStraightDraws` on the board's (ascending) ranks. -/
def checkStraightDraws (ranks : List Int) : Bool :=
  if ranks.length < 3 then false
  else
    let uniqueRanks := (ranks.dedup).insertionSort intAscOrder
    if (List.range (uniqueRanks.length - 2)).any
        (fun i => decide (uniqueRanks.getD (i + 2) 0 - uniqueRanks.getD i 0 ≤ 4)) then true
    else if 14 ∈ uniqueRanks ∧ uniqueRanks.any (fun r => decide (r ≤ 5)) then true
    else false

/-- The board-texture report of `analyzeBoardTexture`.  (The early-return
object for boards of fewer than 3 cards carries a `draws` list instead of the
draw flags; only `scary` is ever read, so the flags are all set false.) -/
structure BoardTexture where
  scary : Bool
  flushDraw : Bool
  straightDraw : Bool
  pairs : Nat
  coordinated : Bool
deriving Repr

/-- `analyzeBoardTexture`. -/
def analyzeBoardTexture (communityCards : List Card) : BoardTexture :=
  if communityCards.length < 3 then
    { scary := false, flushDraw := false, straightDraw := false, pairs := 0,
      coordinated := false }
  else
    let suits := communityCards.map (·.suit)
    let ranks := (communityCards.map (·.value)).insertionSort intAscOrder
    let maxSuitCount :=
      match (firstDedup suits).map (fun s => (suits.filter (· = s)).length) with
      | [] => 0
      | c :: cs => cs.foldl max c
    let hasGaps := checkStraightDraws ranks
    let pairs := ((firstDedup ranks).filter fun r => decide (2 ≤ (ranks.filter (· = r)).length)).length
    { scary := decide (3 ≤ maxSuitCount) || hasGaps || decide (0 < pairs),
      flushDraw := decide (3 ≤ maxSuitCount),
      straightDraw := hasGaps,
      pairs := pairs,
      coordinated := decide (3 ≤ maxSuitCount) || hasGaps }

/-- The opponent summary of `analyzeOpponents` (computed by `makeDecision`,
passed to `shouldBluff`, which ignores its parameter). -/
structure OpponentAnalysis where
  count : Nat
  totalChips : ℚ
  averageStack : ℚ
  tightPlayers : Nat
  aggressivePlayers : Nat
deriving Repr

/-- `analyzeOpponents`. -/
def analyzeOpponents (players : List Player) (currentPlayer : Player) : OpponentAnalysis :=
  let opponents := players.filter fun p =>
    decide (p.id ≠ currentPlayer.id) && p.isActive && !p.isFolded
  { count := opponents.length,
    totalChips := (opponents.map (·.chips)).sum,
    averageStack :=
      if 0 < opponents.length then (opponents.map (·.chips)).sum / (opponents.length : ℚ)
      else 0,
    tightPlayers := (opponents.filter fun p => p.personality = "tight").length,
    aggressivePlayers := (opponents.filter fun p => p.personality = "aggressive").length }

/-- `calculatePositionStrength` (computed and then discarded by
`makeDecision`).  JS `findIndex` yields -1 for an absent seat where `findIdx`
yields the length; the value is unused either way. -/
def calculatePositionStrength (players : List Player) (currentPlayer : Player) : ℚ :=
  let activePlayers := players.filter fun p => p.isActive && !p.isFolded
  let currentIndex := activePlayers.findIdx fun p => decide (p.id = currentPlayer.id)
  let totalPlayers := activePlayers.length
  (currentIndex : ℚ) / ((max (totalPlayers - 1) 1 : Nat) : ℚ)

/-- `shouldBluff`: strong hands never bluff (checked before any draw); then a
bluff-frequency draw, an opponent-count cap, and a scary-board non-preflop
requirement. -/
def shouldBluff (ai : PokerAI) (gs : AIGameState) (handStrength : ℚ)
    (_opponentAnalysis : OpponentAnalysis) (rng : Rng) (ix : Nat) : Bool × Nat :=
  if 7/10 < handStrength then (false, ix)
  else
    let r := rng ix
    if ai.personality.bluffFreq < r then (false, ix + 1)
    else
      let activeOpponents := (gs.players.filter fun p => p.isActive && !p.isFolded).length - 1
      if 2 < activeOpponents then (false, ix + 1)
      else
        let boardStrength := analyzeBoardTexture gs.communityCards
        (boardStrength.scary && decide (gs.gamePhase ≠ Phase.preflop), ix + 1)

/-- `generateBluff`: a raise of 60–100% of the pot, capped at 30% of the
seat's stack. -/
def generateBluff (gs : AIGameState) (player : Player) (rng : Rng) (ix : Nat) : Decision × Nat :=
  let r := rng ix
  let bluffSize := gs.pot * (3/5 + r * (2/5))
  ({ action := BetAction.raise,
     amount := some (min bluffSize (player.chips * (3/10))),
     isBluff := true }, ix + 1)

/-- `makeDecision`: the full pipeline.  `updateModels` only appends to the
write-only history/statistics and is omitted; the opponent analysis and
position strength are computed and discarded exactly as in the source. -/
def makeDecision (ai : PokerAI) (gs : AIGameState) (player : Player)
    (rng : Rng) (ix : Nat) : Decision × Nat :=
  let handStrength := getHandStrength player.cards gs.communityCards
  let callAmount := gs.currentBet - player.currentBet
  let potOdds := if 0 < callAmount then callAmount / (gs.pot + callAmount) else 0
  let opponentAnalysis := analyzeOpponents gs.players player
  let _positionStrength := calculatePositionStrength gs.players player
  let step1 := getBaseDecision ai handStrength potOdds gs.gamePhase callAmount player.chips rng ix
  let step2 := applyPersonalityAdjustments ai step1.1 handStrength gs rng step1.2
  let step3 := applyDifficultyAdjustments ai step2.1 handStrength rng step2.2
  let bluff := shouldBluff ai gs handStrength opponentAnalysis rng step3.2
  if bluff.1 then generateBluff gs player rng bluff.2 else (step3.1, bluff.2)

/-! ## Concrete fixtures used by the counterexamples and witnesses -/

/-- A community board that is itself a royal flush: every contender plays the
board, producing an exact tie. -/
def splitBoard : List Card :=
  [⟨10, Suit.spades⟩, ⟨11, Suit.spades⟩, ⟨12, Suit.spades⟩, ⟨13, Suit.spades⟩, ⟨14, Suit.spades⟩]

def splitSeat0 : Player :=
  { id := 0, chips := 100, cards := [⟨2, Suit.hearts⟩, ⟨3, Suit.hearts⟩], currentBet := 0,
    totalInvested := 0, isAI := false, isActive := true, isAllIn := false,
    isFolded := false, personality := "" }

def splitSeat1 : Player :=
  { id := 1, chips := 100, cards := [⟨2, Suit.diamonds⟩, ⟨3, Suit.diamonds⟩], currentBet := 0,
    totalInvested := 0, isAI := true, isActive := true, isAllIn := false,
    isFolded := false, personality := "tight" }

/-- A river state with an odd pot (15) and two tied contenders. -/
def splitState : GameState :=
  { players := [splitSeat0, splitSeat1], pot := 15, dealerPosition := 0, smallBlind := 5,
    bigBlind := 10, communityCards := splitBoard, currentPlayerIndex := 0,
    gamePhase := Phase.river }

/-- The best 5-of-7 hand of both contenders of `splitState`. -/
def splitRoyal : HandResult :=
  { rank := 10, name := "Royal Flush", kickers := [14],
    cards := [⟨14, Suit.spades⟩, ⟨13, Suit.spades⟩, ⟨12, Suit.spades⟩,
      ⟨11, Suit.spades⟩, ⟨10, Suit.spades⟩] }

/-- The state `showdown` produces from `splitState`: each winner received
floor(15/2) = 7 and one chip vanished. -/
def splitStateAfter : GameState :=
  { players := [{ splitSeat0 with chips := 107 }, { splitSeat1 with chips := 107 }],
    pot := 0, dealerPosition := 0, smallBlind := 5, bigBlind := 10,
    communityCards := splitBoard, currentPlayerIndex := 0,
    gamePhase := Phase.showdownPhase }

def blindSeat0 : Player :=
  { id := 0, chips := 100, cards := [], currentBet := 0, totalInvested := 0,
    isAI := false, isActive := true, isAllIn := false, isFolded := false, personality := "" }

/-- The short-stacked seat after the dealer: 3 chips against a small blind of 5. -/
def blindSeat1 : Player := { blindSeat0 with id := 1, chips := 3 }

def blindSeat2 : Player := { blindSeat0 with id := 2, chips := 100 }

/-- A hand-start state in which posting the small blind consumes seat 1's
whole stack. -/
def blindState : GameState :=
  { players := [blindSeat0, blindSeat1, blindSeat2], pot := 0, dealerPosition := 0,
    smallBlind := 5, bigBlind := 10, communityCards := [], currentPlayerIndex := 0,
    gamePhase := Phase.preflop }

/-- The acting seat of the decision-agent scenario: a 5-chip stack holding the
nut royal flush on the flop, facing a bet of 100. -/
def c8Hero : Player :=
  { id := 0, chips := 5, cards := [⟨14, Suit.spades⟩, ⟨13, Suit.spades⟩], currentBet := 0,
    totalInvested := 0, isAI := true, isActive := true, isAllIn := false,
    isFolded := false, personality := "aggressive" }

def c8Villain : Player :=
  { id := 1, chips := 200, cards := [⟨2, Suit.hearts⟩, ⟨7, Suit.diamonds⟩], currentBet := 100,
    totalInvested := 100, isAI := true, isActive := true, isAllIn := false,
    isFolded := false, personality := "tight" }

def c8View : AIGameState :=
  { communityCards := [⟨12, Suit.spades⟩, ⟨11, Suit.spades⟩, ⟨10, Suit.spades⟩],
    pot := 150, currentBet := 100, players := [c8Hero, c8Villain],
    gamePhase := Phase.flop, smallBlind := 5, bigBlind := 10 }

def c8AI : PokerAI := { personality := aggressivePersonality, difficulty := difficulty3 }

/-! ## Lemmas about the kicker and hand comparators -/

theorem ckLoop_succ (k1 k2 : List Int) (i n : Nat) :
    ckLoop k1 k2 i (n + 1) =
      if k1.getD i 0 = k2.getD i 0 then ckLoop k1 k2 (i + 1) n
      else k1.getD i 0 - k2.getD i 0 := by
  simp only [ckLoop, ne_eq, ite_not]

theorem ckLoop_self (k : List Int) : ∀ (n i : Nat), ckLoop k k i n = 0 := by
  intro n
  induction n with
  | zero => intro i; rfl
  | succ n ih => intro i; rw [ckLoop_succ, if_pos rfl]; exact ih (i + 1)

theorem ckLoop_neg (k1 k2 : List Int) :
    ∀ (n i : Nat), ckLoop k2 k1 i n = - ckLoop k1 k2 i n := by
  intro n
  induction n with
  | zero => intro i; rfl
  | succ n ih =>
    intro i
    rw [ckLoop_succ, ckLoop_succ]
    by_cases h : k1.getD i 0 = k2.getD i 0
    · rw [if_pos h.symm, if_pos h]; exact ih (i + 1)
    · rw [if_neg (Ne.symm h), if_neg h]; omega

theorem ckLoop_trans (k1 k2 k3 : List Int) :
    ∀ (n i : Nat), 0 ≤ ckLoop k1 k2 i n → 0 ≤ ckLoop k2 k3 i n →
      0 ≤ ckLoop k1 k3 i n := by
  intro n
  induction n with
  | zero => intro i _ _; exact le_refl 0
  | succ n ih =>
    intro i h12 h23
    rw [ckLoop_succ] at h12 h23 ⊢
    by_cases hab : k1.getD i 0 = k2.getD i 0
    · rw [if_pos hab] at h12
      by_cases hbc : k2.getD i 0 = k3.getD i 0
      · rw [if_pos hbc] at h23
        rw [if_pos (hab.trans hbc)]
        exact ih (i + 1) h12 h23
      · rw [if_neg hbc] at h23
        have hac : k1.getD i 0 ≠ k3.getD i 0 := by omega
        rw [if_neg hac]; omega
    · rw [if_neg hab] at h12
      by_cases hbc : k2.getD i 0 = k3.getD i 0
      · have hac : k1.getD i 0 ≠ k3.getD i 0 := by omega
        rw [if_neg hac]; omega
      · rw [if_neg hbc] at h23
        have hac : k1.getD i 0 ≠ k3.getD i 0 := by omega
        rw [if_neg hac]; omega

theorem ckLoop_beyond (k1 k2 : List Int) :
    ∀ (n i : Nat), max k1.length k2.length ≤ i → ckLoop k1 k2 i n = 0 := by
  intro n
  induction n with
  | zero => intro i _; rfl
  | succ n ih =>
    intro i hi
    have h1 : k1.getD i 0 = 0 := List.getD_eq_default _ _ (by omega)
    have h2 : k2.getD i 0 = 0 := List.getD_eq_default _ _ (by omega)
    rw [ckLoop_succ, if_pos (h1.trans h2.symm)]
    exact ih (i + 1) (by omega)

theorem ckLoop_extend (k1 k2 : List Int) :
    ∀ (n m i : Nat), max k1.length k2.length ≤ i + n →
      ckLoop k1 k2 i (n + m) = ckLoop k1 k2 i n := by
  intro n
  induction n with
  | zero =>
    intro m i hi
    rw [Nat.add_zero] at hi
    rw [Nat.zero_add, ckLoop_beyond k1 k2 m i hi]
    rfl
  | succ n ih =>
    intro m i hi
    have hre : n + 1 + m = (n + m) + 1 := by omega
    rw [hre, ckLoop_succ, ckLoop_succ]
    by_cases h : k1.getD i 0 = k2.getD i 0
    · rw [if_pos h, if_pos h]
      exact ih m (i + 1) (by omega)
    · rw [if_neg h, if_neg h]

theorem ckLoop_first_diff (k1 k2 : List Int) :
    ∀ (n i j : Nat), (∀ m, m < j → k1.getD (i + m) 0 = k2.getD (i + m) 0) →
      k1.getD (i + j) 0 ≠ k2.getD (i + j) 0 → j < n →
      ckLoop k1 k2 i n = k1.getD (i + j) 0 - k2.getD (i + j) 0 := by
  intro n
  induction n with
  | zero => intro i j _ _ hj; omega
  | succ n ih =>
    intro i j hpre hdiff hj
    rw [ckLoop_succ]
    match j with
    | 0 =>
      rw [Nat.add_zero] at hdiff
      rw [if_neg hdiff, Nat.add_zero]
    | j + 1 =>
      have h0 : k1.getD i 0 = k2.getD i 0 := by
        have := hpre 0 (by omega)
        rwa [Nat.add_zero] at this
      rw [if_pos h0]
      have hpre' : ∀ m, m < j → k1.getD (i + 1 + m) 0 = k2.getD (i + 1 + m) 0 := by
        intro m hm
        have := hpre (m + 1) (by omega)
        rwa [show i + (m + 1) = i + 1 + m by omega] at this
      have hdiff' : k1.getD (i + 1 + j) 0 ≠ k2.getD (i + 1 + j) 0 := by
        rwa [show i + 1 + j = i + (j + 1) by omega]
      have := ih (i + 1) j hpre' hdiff' (by omega)
      rw [this, show i + 1 + j = i + (j + 1) by omega]

theorem compareKickers_self (h : HandResult) : compareKickers h h = 0 :=
  ckLoop_self _ _ _

theorem compareKickers_neg (h1 h2 : HandResult) :
    compareKickers h2 h1 = - compareKickers h1 h2 := by
  unfold compareKickers
  rw [max_comm]
  exact ckLoop_neg _ _ _ _

theorem compareKickers_trans (h1 h2 h3 : HandResult) :
    0 ≤ compareKickers h1 h2 → 0 ≤ compareKickers h2 h3 →
      0 ≤ compareKickers h1 h3 := by
  intro h12 h23
  unfold compareKickers at h12 h23 ⊢
  set N := max (max h1.kickers.length h2.kickers.length)
    (max (max h2.kickers.length h3.kickers.length)
      (max h1.kickers.length h3.kickers.length)) with hN
  have e12 : ckLoop h1.kickers h2.kickers 0 N =
      ckLoop h1.kickers h2.kickers 0 (max h1.kickers.length h2.kickers.length) := by
    rw [show N = max h1.kickers.length h2.kickers.length +
        (N - max h1.kickers.length h2.kickers.length) by omega]
    exact ckLoop_extend _ _ _ _ _ (by omega)
  have e23 : ckLoop h2.kickers h3.kickers 0 N =
      ckLoop h2.kickers h3.kickers 0 (max h2.kickers.length h3.kickers.length) := by
    rw [show N = max h2.kickers.length h3.kickers.length +
        (N - max h2.kickers.length h3.kickers.length) by omega]
    exact ckLoop_extend _ _ _ _ _ (by omega)
  have e13 : ckLoop h1.kickers h3.kickers 0 N =
      ckLoop h1.kickers h3.kickers 0 (max h1.kickers.length h3.kickers.length) := by
    rw [show N = max h1.kickers.length h3.kickers.length +
        (N - max h1.kickers.length h3.kickers.length) by omega]
    exact ckLoop_extend _ _ _ _ _ (by omega)
  rw [← e13]
  exact ckLoop_trans _ _ _ N 0 (by rw [e12]; exact h12) (by rw [e23]; exact h23)

theorem compareHands_self (h : HandResult) : compareHands h h = 0 := by
  unfold compareHands
  rw [if_neg (by simp)]
  exact compareKickers_self h

theorem compareHands_neg (h1 h2 : HandResult) :
    compareHands h2 h1 = - compareHands h1 h2 := by
  unfold compareHands
  by_cases h : h1.rank = h2.rank
  · rw [if_neg (by simp [h]), if_neg (by simp [h])]
    exact compareKickers_neg h1 h2
  · rw [if_pos (by simp [Ne.symm h]), if_pos (by simp [h])]
    omega

theorem compareHands_trans (h1 h2 h3 : HandResult) :
    0 ≤ compareHands h1 h2 → 0 ≤ compareHands h2 h3 →
      0 ≤ compareHands h1 h3 := by
  intro h12 h23
  unfold compareHands at h12 h23 ⊢
  by_cases hab : h1.rank = h2.rank
  · rw [if_neg (by simp [hab])] at h12
    by_cases hbc : h2.rank = h3.rank
    · rw [if_neg (by simp [hbc])] at h23
      rw [if_neg (by simp [hab.trans hbc])]
      exact compareKickers_trans h1 h2 h3 h12 h23
    · rw [if_pos (by simp [hbc])] at h23
      have : h3.rank < h2.rank := by omega
      rw [if_pos (by simp; omega)]
      omega
  · rw [if_pos (by simp [hab])] at h12
    have hlt : h2.rank < h1.rank := by omega
    by_cases hbc : h2.rank = h3.rank
    · rw [if_pos (by simp; omega)]
      omega
    · rw [if_pos (by simp [hbc])] at h23
      rw [if_pos (by simp; omega)]
      omega

/-- C2: `compareHands` is a total order on hand results (reflexive with
`compareHands H H = 0`, antisymmetric in the sense that swapping the
arguments negates the result, and transitive on the nonnegative side): it
compares category ranks first (unequal ranks decide by rank difference); on
equal categories it equals `compareKickers`, which compares the 0-padded
kicker sequences lexicographically with the first differing index deciding;
hands equal in both category and kicker sequence compare as a tie (0). -/
theorem spec_C2_compareHands_total_order :
    (∀ h : HandResult, compareHands h h = 0) ∧
    (∀ h1 h2 : HandResult, compareHands h2 h1 = - compareHands h1 h2) ∧
    (∀ h1 h2 h3 : HandResult,
      0 ≤ compareHands h1 h2 → 0 ≤ compareHands h2 h3 → 0 ≤ compareHands h1 h3) ∧
    (∀ h1 h2 : HandResult, h1.rank ≠ h2.rank →
      compareHands h1 h2 = h1.rank - h2.rank) ∧
    (∀ h1 h2 : HandResult, h1.rank = h2.rank →
      compareHands h1 h2 = compareKickers h1 h2) ∧
    (∀ h1 h2 : HandResult, ∀ j : Nat,
      (∀ m, m < j → h1.kickers.getD m 0 = h2.kickers.getD m 0) →
      h1.kickers.getD j 0 ≠ h2.kickers.getD j 0 →
      compareKickers h1 h2 = h1.kickers.getD j 0 - h2.kickers.getD j 0) ∧
    (∀ h1 h2 : HandResult, h1.rank = h2.rank → h1.kickers = h2.kickers →
      compareHands h1 h2 = 0) := by
  refine ⟨compareHands_self, compareHands_neg, compareHands_trans, ?_, ?_, ?_, ?_⟩
  · intro h1 h2 hne
    unfold compareHands
    rw [if_pos (by simpa using hne)]
  · intro h1 h2 heq
    unfold compareHands
    rw [if_neg (by simpa using heq)]
  · intro h1 h2 j hpre hdiff
    have hj : j < max h1.kickers.length h2.kickers.length := by
      by_contra hge
      have h1d : h1.kickers.getD j 0 = 0 := List.getD_eq_default _ _ (by omega)
      have h2d : h2.kickers.getD j 0 = 0 := List.getD_eq_default _ _ (by omega)
      exact hdiff (h1d.trans h2d.symm)
    unfold compareKickers
    have := ckLoop_first_diff h1.kickers h2.kickers
      (max h1.kickers.length h2.kickers.length) 0 j
      (by intro m hm; simpa using hpre m hm) (by simpa using hdiff) hj
    simpa using this
  · intro h1 h2 hrank hkick
    unfold compareHands compareKickers
    rw [if_neg (by simpa using hrank), hkick]
    exact ckLoop_self _ _ _

/-- Witness for C2 at concrete hand results: a pair with kickers [9, 5]
compared with itself, with a high card of the same kickers, and with a pair
whose second kicker differs. -/
theorem spec_C2_witness :
    compareHands ⟨2, "Pair", [9, 5], []⟩ ⟨2, "Pair", [9, 5], []⟩ = 0 ∧
    compareHands ⟨2, "Pair", [9, 5], []⟩ ⟨1, "High Card", [9, 5], []⟩ =
      (⟨2, "Pair", [9, 5], []⟩ : HandResult).rank -
      (⟨1, "High Card", [9, 5], []⟩ : HandResult).rank ∧
    compareHands ⟨2, "Pair", [9, 5], []⟩ ⟨2, "Pair", [9, 3], []⟩ =
      compareKickers ⟨2, "Pair", [9, 5], []⟩ ⟨2, "Pair", [9, 3], []⟩ ∧
    compareKickers ⟨2, "Pair", [9, 5], []⟩ ⟨2, "Pair", [9, 3], []⟩ =
      ([9, 5] : List Int).getD 1 0 - ([9, 3] : List Int).getD 1 0 ∧
    0 ≤ compareHands ⟨2, "Pair", [9, 5], []⟩ ⟨2, "Pair", [9, 3], []⟩ := by
  refine ⟨spec_C2_compareHands_total_order.1 _,
    spec_C2_compareHands_total_order.2.2.2.1 _ _ (by decide),
    spec_C2_compareHands_total_order.2.2.2.2.1 _ _ (by decide),
    spec_C2_compareHands_total_order.2.2.2.2.2.1 _ _ 1 (by decide) (by decide),
    spec_C2_compareHands_total_order.2.2.1 _ ⟨2, "Pair", [9, 4], []⟩ _
      (by decide) (by decide)⟩

/-! ## Rank values of the category checks -/

theorem checkRoyalFlush_rank {cs : List ECard} {h : HandResult} :
    checkRoyalFlush cs = some h → h.rank = 10 := by
  intro hc
  unfold checkRoyalFlush at hc
  split at hc
  · injection hc with hc; rw [← hc]
  · cases hc

theorem checkStraightFlush_rank {cs : List ECard} {h : HandResult} :
    checkStraightFlush cs = some h → h.rank = 9 := by
  intro hc
  unfold checkStraightFlush at hc
  split at hc
  · split at hc
    · injection hc with hc; rw [← hc]
    · cases hc
  · cases hc

theorem checkFourOfAKind_rank {cs : List ECard} {h : HandResult} :
    checkFourOfAKind cs = some h → h.rank = 8 := by
  intro hc
  unfold checkFourOfAKind at hc
  split at hc
  · injection hc with hc; rw [← hc]
  · cases hc

theorem checkFullHouse_rank {cs : List ECard} {h : HandResult} :
    checkFullHouse cs = some h → h.rank = 7 := by
  intro hc
  unfold checkFullHouse at hc
  split at hc
  · cases hc
  · split at hc
    · cases hc
    · injection hc with hc; rw [← hc]

theorem checkFlush_rank {cs : List ECard} {h : HandResult} :
    checkFlush cs = some h → h.rank = 6 := by
  intro hc
  unfold checkFlush at hc
  split at hc
  · injection hc with hc; rw [← hc]
  · cases hc

theorem checkStraight_rank {cs : List ECard} {h : HandResult} :
    checkStraight cs = some h → h.rank = 5 := by
  intro hc
  unfold checkStraight at hc
  split at hc
  · injection hc with hc; rw [← hc]
  · cases hc

theorem checkThreeOfAKind_rank {cs : List ECard} {h : HandResult} :
    checkThreeOfAKind cs = some h → h.rank = 4 := by
  intro hc
  unfold checkThreeOfAKind at hc
  split at hc
  · injection hc with hc; rw [← hc]
  · cases hc

theorem checkTwoPair_rank {cs : List ECard} {h : HandResult} :
    checkTwoPair cs = some h → h.rank = 3 := by
  intro hc
  unfold checkTwoPair at hc
  dsimp only at hc
  split at hc
  · injection hc with hc; rw [← hc]
  · cases hc

theorem checkPair_rank {cs : List ECard} {h : HandResult} :
    checkPair cs = some h → h.rank = 2 := by
  intro hc
  unfold checkPair at hc
  split at hc
  · injection hc with hc; rw [← hc]
  · cases hc

theorem checkHighCard_rank (cs : List ECard) : (checkHighCard cs).rank = 1 := rfl

/-- The evaluator always yields a category rank in 1..10. -/
theorem evaluateHand_rank_bounds (cards : List Card) :
    1 ≤ (evaluateHand cards).rank ∧ (evaluateHand cards).rank ≤ 10 := by
  unfold evaluateHand
  dsimp only
  split
  · rename_i heq; rw [checkRoyalFlush_rank heq]; exact ⟨by norm_num, le_refl _⟩
  split
  · rename_i heq; rw [checkStraightFlush_rank heq]; exact ⟨by norm_num, by norm_num⟩
  split
  · rename_i heq; rw [checkFourOfAKind_rank heq]; exact ⟨by norm_num, by norm_num⟩
  split
  · rename_i heq; rw [checkFullHouse_rank heq]; exact ⟨by norm_num, by norm_num⟩
  split
  · rename_i heq; rw [checkFlush_rank heq]; exact ⟨by norm_num, by norm_num⟩
  split
  · rename_i heq; rw [checkStraight_rank heq]; exact ⟨by norm_num, by norm_num⟩
  split
  · rename_i heq; rw [checkThreeOfAKind_rank heq]; exact ⟨by norm_num, by norm_num⟩
  split
  · rename_i heq; rw [checkTwoPair_rank heq]; exact ⟨by norm_num, by norm_num⟩
  split
  · rename_i heq; rw [checkPair_rank heq]; exact ⟨by norm_num, by norm_num⟩
  rw [checkHighCard_rank]; exact ⟨le_refl _, by norm_num⟩

/-! ## Combination generation covers exactly the k-element sublists -/

theorem cons_sublist_structure {a : α} {t l : List α} (h : (a :: t).Sublist l) :
    ∃ i, l[i]? = some a ∧ t.Sublist (l.drop (i + 1)) := by
  induction l with
  | nil => cases h
  | cons b l' ih =>
    cases h with
    | cons _ h' =>
      obtain ⟨i, hi, ht⟩ := ih h'
      exact ⟨i + 1, by simpa using hi, by simpa using ht⟩
    | cons₂ _ h' => exact ⟨0, by simp, by simpa using h'⟩

theorem mem_generateCombinations :
    ∀ (k : Nat) (cards xs : List Card), 1 ≤ k →
      (xs ∈ generateCombinations cards k ↔ xs.Sublist cards ∧ xs.length = k) := by
  intro k
  induction k with
  | zero => intro cards xs h; omega
  | succ k ih =>
    intro cards xs _
    match k with
    | 0 =>
      unfold generateCombinations
      rw [if_pos rfl]
      simp only [List.mem_map]
      constructor
      · rintro ⟨c, hc, rfl⟩
        exact ⟨List.singleton_sublist.mpr hc, rfl⟩
      · rintro ⟨hsub, hlen⟩
        obtain ⟨a, rfl⟩ := List.length_eq_one.mp hlen
        exact ⟨a, List.singleton_sublist.mp hsub, rfl⟩
    | k' + 1 =>
      unfold generateCombinations
      rw [if_neg (by omega)]
      by_cases hlen : k' + 1 + 1 = cards.length
      · rw [if_pos hlen]
        simp only [List.mem_singleton]
        constructor
        · rintro rfl
          exact ⟨List.Sublist.refl _, hlen.symm⟩
        · rintro ⟨hsub, hxlen⟩
          exact hsub.eq_of_length (by omega)
      · rw [if_neg hlen]
        simp only [List.mem_flatMap, List.mem_range]
        constructor
        · rintro ⟨i, hi, hmem⟩
          match hdrop : cards.drop i with
          | [] => rw [hdrop] at hmem; cases hmem
          | c :: rest =>
            rw [hdrop] at hmem
            simp only [List.mem_map] at hmem
            obtain ⟨combo, hcombo, rfl⟩ := hmem
            obtain ⟨hcsub, hclen⟩ := (ih rest combo (by omega)).mp hcombo
            have hsub : (c :: combo).Sublist (cards.drop i) := by
              rw [hdrop]
              exact hcsub.cons₂ c
            exact ⟨hsub.trans (List.drop_sublist i cards), by simp [hclen]⟩
        · rintro ⟨hsub, hxlen⟩
          match xs, hxlen with
          | a :: t, hxlen =>
            obtain ⟨i, hget, htsub⟩ := cons_sublist_structure hsub
            have hilt : i < cards.length := (List.getElem?_eq_some.mp hget).1
            have htlen : t.length ≤ cards.length - (i + 1) := by
              have := htsub.length_le
              simpa using this
            refine ⟨i, by simp at hxlen; omega, ?_⟩
            have hdropeq : cards.drop i = a :: cards.drop (i + 1) := by
              rw [List.drop_eq_getElem_cons hilt]
              congr 1
              have := (List.getElem?_eq_some.mp hget).2
              exact this
            rw [hdropeq]
            simp only [List.mem_map]
            refine ⟨t, ?_, rfl⟩
            exact (ih (cards.drop (i + 1)) t (by omega)).mpr ⟨htsub, by simp at hxlen; omega⟩

/-! ## The argmax loop of getBestFiveCardHand -/

theorem betterThan_some_iff (r b : HandResult) :
    betterThan r (some b) b.rank = true ↔ 0 < compareHands r b := by
  unfold betterThan compareHands
  by_cases h : r.rank = b.rank
  · rw [if_neg (by simpa using h)]
    simp [h]
  · rw [if_pos (by simpa using h)]
    simp only [Bool.or_eq_true, decide_eq_true_eq, Bool.and_eq_true]
    constructor
    · rintro (hlt | ⟨heq, _⟩)
      · omega
      · exact absurd heq h
    · intro hpos
      exact Or.inl (by omega)

theorem bestLoop_spec (combos : List (List Card)) :
    ∀ h : HandResult,
      ∃ h', bestLoop (some h) h.rank combos = some h' ∧
        (h' = h ∨ ∃ c ∈ combos, h' = evaluateHand c) ∧
        0 ≤ compareHands h' h ∧
        ∀ c ∈ combos, 0 ≤ compareHands h' (evaluateHand c) := by
  induction combos with
  | nil =>
    intro h
    exact ⟨h, rfl, Or.inl rfl, by rw [compareHands_self], by simp⟩
  | cons c rest ih =>
    intro h
    unfold bestLoop
    by_cases hb : betterThan (evaluateHand c) (some h) h.rank = true
    · rw [if_pos hb]
      have hgt : 0 < compareHands (evaluateHand c) h := (betterThan_some_iff _ _).mp hb
      obtain ⟨h', hrun, horigin, hgeq, hall⟩ := ih (evaluateHand c)
      refine ⟨h', hrun, ?_, ?_, ?_⟩
      · rcases horigin with rfl | ⟨c', hc', rfl⟩
        · exact Or.inr ⟨c, List.mem_cons_self c rest, rfl⟩
        · exact Or.inr ⟨c', List.mem_cons_of_mem c hc', rfl⟩
      · exact compareHands_trans _ _ _ hgeq (le_of_lt hgt)
      · intro c' hc'
        rcases List.mem_cons.mp hc' with rfl | hc'
        · exact hgeq
        · exact hall c' hc'
    · rw [if_neg hb]
      have hle : 0 ≤ compareHands h (evaluateHand c) := by
        have := (betterThan_some_iff (evaluateHand c) h).not.mp hb
        rw [compareHands_neg]
        omega
      obtain ⟨h', hrun, horigin, hgeq, hall⟩ := ih h
      refine ⟨h', hrun, ?_, hgeq, ?_⟩
      · rcases horigin with rfl | ⟨c', hc', rfl⟩
        · exact Or.inl rfl
        · exact Or.inr ⟨c', List.mem_cons_of_mem c hc', rfl⟩
      · intro c' hc'
        rcases List.mem_cons.mp hc' with rfl | hc'
        · exact compareHands_trans _ _ _ hgeq hle
        · exact hall c' hc'

theorem bestLoop_start (c0 : List Card) (rest : List (List Card)) :
    ∃ h', bestLoop none 0 (c0 :: rest) = some h' ∧
      (∃ c ∈ c0 :: rest, h' = evaluateHand c) ∧
      ∀ c ∈ c0 :: rest, 0 ≤ compareHands h' (evaluateHand c) := by
  have hfirst : betterThan (evaluateHand c0) none 0 = true := by
    unfold betterThan
    have := (evaluateHand_rank_bounds c0).1
    simp only [Bool.or_eq_true, decide_eq_true_eq]
    exact Or.inl (by omega)
  unfold bestLoop
  rw [if_pos hfirst]
  obtain ⟨h', hrun, horigin, hgeq, hall⟩ := bestLoop_spec rest (evaluateHand c0)
  refine ⟨h', hrun, ?_, ?_⟩
  · rcases horigin with rfl | ⟨c', hc', rfl⟩
    · exact ⟨c0, List.mem_cons_self c0 rest, rfl⟩
    · exact ⟨c', List.mem_cons_of_mem c0 hc', rfl⟩
  · intro c' hc'
    rcases List.mem_cons.mp hc' with rfl | hc'
    · exact hgeq
    · exact hall c' hc'

/-- C1: over any 7-card input, `getBestFiveCardHand` returns a hand result
that compares greater-or-equal (under `compareHands`) to `evaluateHand` of
every one of the C(7,5) = 21 five-card sublists, and is itself the evaluation
of one of them. -/
theorem spec_C1_getBestFiveCardHand_max (p c : List Card)
    (hlen : (p ++ c).length = 7) :
    ∃ h', getBestFiveCardHand p c = some h' ∧
      (∀ xs : List Card, xs.Sublist (p ++ c) → xs.length = 5 →
        0 ≤ compareHands h' (evaluateHand xs)) ∧
      ∃ xs : List Card, xs.Sublist (p ++ c) ∧ xs.length = 5 ∧
        h' = evaluateHand xs := by
  unfold getBestFiveCardHand
  rw [if_neg (by omega)]
  have htake : (p ++ c).take 5 ∈ generateCombinations (p ++ c) 5 :=
    (mem_generateCombinations 5 (p ++ c) _ (by omega)).mpr
      ⟨List.take_sublist 5 (p ++ c), by simp [hlen]⟩
  match hcombos : generateCombinations (p ++ c) 5 with
  | [] => rw [hcombos] at htake; cases htake
  | c0 :: rest =>
    obtain ⟨h', hrun, ⟨cw, hcw, hweq⟩, hall⟩ := bestLoop_start c0 rest
    refine ⟨h', hrun, ?_, ?_⟩
    · intro xs hsub hxlen
      have : xs ∈ generateCombinations (p ++ c) 5 :=
        (mem_generateCombinations 5 (p ++ c) xs (by omega)).mpr ⟨hsub, hxlen⟩
      rw [hcombos] at this
      exact hall xs this
    · have : cw ∈ generateCombinations (p ++ c) 5 := by rw [hcombos]; exact hcw
      obtain ⟨hsub, hclen⟩ := (mem_generateCombinations 5 (p ++ c) cw (by omega)).mp this
      exact ⟨cw, hsub, hclen, hweq⟩

/-- Witness for C1 at a concrete 7-card input (two hole cards and a full
board). -/
theorem spec_C1_witness :
    ∃ h', getBestFiveCardHand
        [⟨14, Suit.spades⟩, ⟨13, Suit.spades⟩]
        [⟨12, Suit.spades⟩, ⟨11, Suit.spades⟩, ⟨10, Suit.spades⟩,
          ⟨3, Suit.hearts⟩, ⟨7, Suit.diamonds⟩] = some h' ∧
      (∀ xs : List Card,
        xs.Sublist ([⟨14, Suit.spades⟩, ⟨13, Suit.spades⟩] ++
          [⟨12, Suit.spades⟩, ⟨11, Suit.spades⟩, ⟨10, Suit.spades⟩,
            ⟨3, Suit.hearts⟩, ⟨7, Suit.diamonds⟩]) → xs.length = 5 →
        0 ≤ compareHands h' (evaluateHand xs)) ∧
      ∃ xs : List Card,
        xs.Sublist ([⟨14, Suit.spades⟩, ⟨13, Suit.spades⟩] ++
          [⟨12, Suit.spades⟩, ⟨11, Suit.spades⟩, ⟨10, Suit.spades⟩,
            ⟨3, Suit.hearts⟩, ⟨7, Suit.diamonds⟩]) ∧ xs.length = 5 ∧
        h' = evaluateHand xs :=
  spec_C1_getBestFiveCardHand_max _ _ (by decide)

/-! ## The wheel straight -/

/-- C3: whenever the rank set of the cards is exactly {14, 2, 3, 4, 5},
`findStraight` detects a straight whose comparative high card is 5 (not 14);
in particular the all-hearts wheel evaluates to a Straight Flush (rank 9)
with kicker sequence [5], which ranks strictly below a 6-high straight
flush. -/
theorem spec_C3_wheel_straight :
    (∀ ecards : List ECard,
      (∀ r : Int, r ∈ ecards.map (·.rank) ↔ r ∈ ([14, 2, 3, 4, 5] : List Int)) →
      ∃ st, findStraight ecards = some st ∧ st.high = 5) ∧
    (evaluateHand [⟨2, Suit.hearts⟩, ⟨3, Suit.hearts⟩, ⟨4, Suit.hearts⟩,
        ⟨5, Suit.hearts⟩, ⟨14, Suit.hearts⟩]).rank = 9 ∧
    (evaluateHand [⟨2, Suit.hearts⟩, ⟨3, Suit.hearts⟩, ⟨4, Suit.hearts⟩,
        ⟨5, Suit.hearts⟩, ⟨14, Suit.hearts⟩]).kickers = [5] ∧
    compareHands
      (evaluateHand [⟨2, Suit.hearts⟩, ⟨3, Suit.hearts⟩, ⟨4, Suit.hearts⟩,
        ⟨5, Suit.hearts⟩, ⟨14, Suit.hearts⟩])
      (evaluateHand [⟨2, Suit.hearts⟩, ⟨3, Suit.hearts⟩, ⟨4, Suit.hearts⟩,
        ⟨5, Suit.hearts⟩, ⟨6, Suit.hearts⟩]) < 0 := by
  refine ⟨?_, by decide, by decide, by decide⟩
  intro ecards hranks
  unfold findStraight
  have hmem : ∀ r : Int, r ∈ ([14, 2, 3, 4, 5] : List Int) →
      r ∈ ((ecards.map (·.rank)).dedup).insertionSort intDescOrder := by
    intro r hr
    rw [(List.perm_insertionSort intDescOrder _).mem_iff, List.mem_dedup]
    exact (hranks r).mpr hr
  rw [if_pos ⟨hmem 14 (by decide), hmem 5 (by decide), hmem 4 (by decide),
    hmem 3 (by decide), hmem 2 (by decide)⟩]
  exact ⟨_, rfl, rfl⟩

/-- Witness for C3's universal part at the concrete mixed-suit wheel. -/
theorem spec_C3_witness :
    ∃ st, findStraight [⟨14, Suit.clubs⟩, ⟨2, Suit.hearts⟩, ⟨3, Suit.diamonds⟩,
      ⟨4, Suit.spades⟩, ⟨5, Suit.hearts⟩] = some st ∧ st.high = 5 :=
  spec_C3_wheel_straight.1 _ (by intro r; simp)

/-! ## Chip conservation lemmas -/

theorem sum_chips_set (players : List Player) :
    ∀ (i : Nat) (p p' : Player), players[i]? = some p →
      ((players.set i p').map (·.chips)).sum =
        (players.map (·.chips)).sum - p.chips + p'.chips := by
  induction players with
  | nil => intro i p p' h; simp at h
  | cons q rest ih =>
    intro i p p' h
    match i with
    | 0 =>
      simp only [List.getElem?_cons_zero, Option.some.injEq] at h
      subst h
      simp only [List.set_cons_zero, List.map_cons, List.sum_cons]
      ring
    | i + 1 =>
      simp only [List.getElem?_cons_succ] at h
      simp only [List.set_cons_succ, List.map_cons, List.sum_cons, ih i p p' h]
      ring

theorem postOneBlind_conserves (t : GameState) (idx : Nat) (blind : ℚ) :
    chipMeasure (postOneBlind t idx blind) = chipMeasure t := by
  unfold postOneBlind
  split
  · rename_i poster h
    split
    · unfold chipMeasure
      dsimp only
      rw [sum_chips_set t.players idx poster _ h]
      ring
    · rfl
  · rfl

theorem postBlinds_conserves (s : GameState) :
    chipMeasure (postBlinds s) = chipMeasure s := by
  unfold postBlinds
  split
  · rfl
  · dsimp only
    rw [show ∀ t : GameState, ∀ k : Nat,
        chipMeasure { t with currentPlayerIndex := k } = chipMeasure t from fun _ _ => rfl]
    rw [postOneBlind_conserves, postOneBlind_conserves]

theorem executePlayerAction_conserves (s : GameState) (i : Nat) (a : BetAction) (amt : ℚ) :
    chipMeasure (executePlayerAction s i a amt) = chipMeasure s := by
  unfold executePlayerAction
  split
  · rfl
  · rename_i player h
    cases a with
    | fold =>
      unfold chipMeasure
      dsimp only
      rw [sum_chips_set s.players i player _ h]
      ring
    | check => rfl
    | call =>
      unfold chipMeasure
      dsimp only
      split
      · rw [sum_chips_set s.players i player _ h]; dsimp only; ring
      · rw [sum_chips_set s.players i player _ h]; dsimp only; ring
    | raise =>
      unfold chipMeasure
      dsimp only
      split
      · rw [sum_chips_set s.players i player _ h]; dsimp only; ring
      · rw [sum_chips_set s.players i player _ h]; dsimp only; ring

theorem foldl_actions_conserves (acts : List (Nat × BetAction × ℚ)) :
    ∀ s : GameState,
      chipMeasure (acts.foldl
        (fun st act => executePlayerAction st act.1 act.2.1 act.2.2) s) = chipMeasure s := by
  induction acts with
  | nil => intro s; rfl
  | cons a rest ih =>
    intro s
    rw [List.foldl_cons, ih, executePlayerAction_conserves]

theorem awardPot_conserves (s : GameState) (i : Nat) :
    chipMeasure (awardPot s i) = chipMeasure s := by
  unfold awardPot
  split
  · rename_i winner h
    unfold chipMeasure
    dsimp only
    rw [sum_chips_set s.players i winner _ h]
    ring
  · rfl

theorem payWinners_sum (ws : List (Nat × HandResult)) (amt : ℚ) :
    ∀ players : List Player, (∀ w ∈ ws, w.1 < players.length) →
      ((payWinners players ws amt).map (·.chips)).sum =
        (players.map (·.chips)).sum + (ws.length : ℚ) * amt := by
  induction ws with
  | nil => intro players _; simp [payWinners]
  | cons w rest ih =>
    intro players hvalid
    unfold payWinners
    rw [List.foldl_cons]
    have hw : w.1 < players.length := hvalid w (List.mem_cons_self w rest)
    have hp' : players[w.1]? = some (players.get ⟨w.1, hw⟩) :=
      List.getElem?_eq_getElem hw
    rw [hp']
    dsimp only
    have hres := ih (players.set w.1
      { players.get ⟨w.1, hw⟩ with chips := (players.get ⟨w.1, hw⟩).chips + amt })
      (by intro v hv; rw [List.length_set]; exact hvalid v (List.mem_cons_of_mem w hv))
    unfold payWinners at hres
    rw [hres, sum_chips_set players w.1 (players.get ⟨w.1, hw⟩) _ hp']
    simp only [List.length_cons]
    push_cast
    ring

theorem forall₂_mem_right {α β : Type} {R : α → β → Prop} :
    ∀ {l : List α} {res : List β}, List.Forall₂ R l res →
      ∀ b ∈ res, ∃ a ∈ l, R a b := by
  intro l res h
  induction h with
  | nil => intro b hb; cases hb
  | cons hR _ ih =>
    intro b hb
    rcases List.mem_cons.mp hb with rfl | hb
    · exact ⟨_, List.mem_cons_self _ _, hR⟩
    · obtain ⟨a, ha, hab⟩ := ih b hb
      exact ⟨a, List.mem_cons_of_mem _ ha, hab⟩

theorem mapM_hands_spec (comm : List Card) :
    ∀ (l : List (Nat × Player)) (res : List (Nat × HandResult)),
      l.mapM (fun ip =>
        (getBestFiveCardHand ip.2.cards comm).map fun h => (ip.1, h)) = some res →
      List.Forall₂
        (fun ip ph => ph.1 = ip.1 ∧ getBestFiveCardHand ip.2.cards comm = some ph.2)
        l res := by
  intro l
  induction l with
  | nil =>
    intro res h
    simp only [List.mapM_nil, pure, Option.some.injEq] at h
    subst h
    exact List.Forall₂.nil
  | cons ip rest ih =>
    intro res h
    rw [List.mapM_cons] at h
    cases hh : getBestFiveCardHand ip.2.cards comm with
    | none => rw [hh] at h; simp at h
    | some hd =>
      rw [hh] at h
      cases hrest : rest.mapM (fun ip =>
          (getBestFiveCardHand ip.2.cards comm).map fun h => (ip.1, h)) with
      | none => rw [hrest] at h; simp at h
      | some tl =>
        rw [hrest] at h
        simp at h
        subst h
        exact List.Forall₂.cons ⟨rfl, hh⟩ (ih tl hrest)

theorem contendersOf_index (s : GameState) :
    ∀ ip ∈ contendersOf s, s.players[ip.1]? = some ip.2 := by
  intro ip hip
  unfold contendersOf at hip
  exact List.mem_enum_iff_getElem?.mp (List.mem_filter.mp hip).1

theorem showdown_measure (s s' : GameState) (h : showdown s = some s') :
    chipMeasure s' = chipMeasure s ∨
      ∃ k : Nat, 2 ≤ k ∧
        chipMeasure s' = chipMeasure s -
          (s.pot - (k : ℚ) * jsFloor (s.pot / (k : ℚ))) := by
  unfold showdown at h
  dsimp only at h
  split at h
  · rename_i a
    injection h with h
    subst h
    exact Or.inl (awardPot_conserves _ _)
  · rename_i as hnotsingle
    unfold evaluateWinner at h
    split at h
    · cases h
    · rename_i playerHands hmapM
      split at h
      · cases h
      · rename_i best sortedRest hsorted
        have hpred : decide (compareHands best.2 best.2 = 0) = true := by
          simp [compareHands_self]
        dsimp only at h
        rw [List.filter_cons, if_pos hpred] at h
        -- validity of every sorted element's index
        have hsortmem : ∀ w : Nat × HandResult, w ∈ best :: sortedRest →
            w.1 < s.players.length := by
          intro w hw
          rw [← hsorted, (List.perm_insertionSort handDescOrder playerHands).mem_iff] at hw
          obtain ⟨ip, hip, hR⟩ := forall₂_mem_right (mapM_hands_spec _ _ _ hmapM) w hw
          have hidx := contendersOf_index _ ip hip
          rw [hR.1]
          exact (List.getElem?_eq_some.mp hidx).1
        cases hrf : List.filter
            (fun ph => decide (compareHands ph.2 best.2 = 0)) sortedRest with
        | nil =>
          rw [hrf] at h
          dsimp only at h
          injection h with h
          subst h
          exact Or.inl (awardPot_conserves _ _)
        | cons w2 more =>
          rw [hrf] at h
          dsimp only at h
          injection h with h
          subst h
          refine Or.inr ⟨(best :: w2 :: more).length, by simp, ?_⟩
          unfold chipMeasure
          dsimp only
          rw [payWinners_sum]
          · ring
          · intro w hw
            rcases List.mem_cons.mp hw with rfl | hw
            · exact hsortmem w (List.mem_cons_self _ _)
            · have : w ∈ List.filter
                  (fun ph => decide (compareHands ph.2 best.2 = 0)) sortedRest := by
                rw [hrf]; exact hw
              exact hsortmem w (List.mem_cons_of_mem _ (List.mem_of_mem_filter this))

/-- Concrete evaluation of the split-pot showdown: the 15-chip pot splits as
7 + 7 between the two tied seats and the remaining chip is dropped. -/
theorem splitState_showdown : showdown splitState = some splitStateAfter := by
  have hloop :
      List.mapM.loop
        (fun ip : Nat × Player =>
          Option.map (fun h => (ip.1, h))
            (getBestFiveCardHand ip.2.cards
              [(⟨10, Suit.spades⟩ : Card), ⟨11, Suit.spades⟩, ⟨12, Suit.spades⟩,
                ⟨13, Suit.spades⟩, ⟨14, Suit.spades⟩]))
        [(0,
            { id := 0, chips := 100,
              cards := [⟨2, Suit.hearts⟩, ⟨3, Suit.hearts⟩], currentBet := 0,
              totalInvested := 0, isAI := false, isActive := true, isAllIn := false,
              isFolded := false, personality := "" }),
          (1,
            { id := 1, chips := 100,
              cards := [⟨2, Suit.diamonds⟩, ⟨3, Suit.diamonds⟩], currentBet := 0,
              totalInvested := 0, isAI := true, isActive := true, isAllIn := false,
              isFolded := false, personality := "tight" })]
        [] = some [(0, splitRoyal), (1, splitRoyal)] := by decide
  have hord : handDescOrder (0, splitRoyal) (1, splitRoyal) := by decide
  have hdec : decide (compareHands splitRoyal splitRoyal = 0) = true := by decide
  have hfloor : jsFloor ((15 : ℚ) / 2) = 7 := by norm_num [jsFloor]
  norm_num [showdown, contendersOf, evaluateWinner, payWinners, splitState,
    splitSeat0, splitSeat1, splitBoard, splitStateAfter, List.enum, List.enumFrom,
    List.insertionSort, List.orderedInsert, hfloor, hloop, hord, hdec]

/-- Counterexample for C4: at `splitState` (pot 15, two seats tied with the
board's royal flush, stacks 100 each, so stacks + pot = 215) the pot
distribution pays 7 to each winner and the sum of stacks plus pot afterwards
is 214 — the claimed equality of stacks+pot across distribution fails. -/
theorem spec_C4_counterexample :
    showdown splitState = some splitStateAfter ∧
    (splitStateAfter.players.map (·.chips)).sum + splitStateAfter.pot ≠
      chipMeasure splitState := by
  refine ⟨splitState_showdown, ?_⟩
  norm_num [splitStateAfter, splitSeat0, splitSeat1, splitState, chipMeasure]

/-- C4 (amended): posting blinds, every action application (fold, check,
call, or raise with any amount), and any sequence of such actions leave the
sum of stacks plus pot unchanged; `awardPot` also conserves it; pot
distribution at showdown conserves it except that a k-way split
(k ≥ 2) silently drops `pot - k·floor(pot/k)`. -/
theorem spec_C4_chip_conservation :
    (∀ s, chipMeasure (postBlinds s) = chipMeasure s) ∧
    (∀ s i a amt, chipMeasure (executePlayerAction s i a amt) = chipMeasure s) ∧
    (∀ (s : GameState) (acts : List (Nat × BetAction × ℚ)),
      chipMeasure (acts.foldl
        (fun st act => executePlayerAction st act.1 act.2.1 act.2.2) s) = chipMeasure s) ∧
    (∀ s i, chipMeasure (awardPot s i) = chipMeasure s) ∧
    (∀ s s', showdown s = some s' →
      chipMeasure s' = chipMeasure s ∨
        ∃ k : Nat, 2 ≤ k ∧
          chipMeasure s' = chipMeasure s -
            (s.pot - (k : ℚ) * jsFloor (s.pot / (k : ℚ)))) :=
  ⟨postBlinds_conserves, executePlayerAction_conserves,
    fun s acts => foldl_actions_conserves acts s, awardPot_conserves, showdown_measure⟩

/-- Witness for C4 (amended) at the concrete states. -/
theorem spec_C4_witness :
    chipMeasure (postBlinds blindState) = chipMeasure blindState ∧
    chipMeasure (executePlayerAction splitState 0 BetAction.call 0) = chipMeasure splitState ∧
    chipMeasure (awardPot splitState 0) = chipMeasure splitState ∧
    (chipMeasure splitStateAfter = chipMeasure splitState ∨
      ∃ k : Nat, 2 ≤ k ∧
        chipMeasure splitStateAfter = chipMeasure splitState -
          (splitState.pot - (k : ℚ) * jsFloor (splitState.pot / (k : ℚ)))) :=
  ⟨spec_C4_chip_conservation.1 _, spec_C4_chip_conservation.2.1 _ _ _ _,
    spec_C4_chip_conservation.2.2.2.1 _ _,
    spec_C4_chip_conservation.2.2.2.2 _ _ splitState_showdown⟩

/-- C6: the betting-round-completion predicate holds exactly when at most one
non-folded active seat remains, or every active non-folded seat has its
current-round bet equal to the round's maximum bet (`getCurrentBet`) or is
all-in. -/
theorem spec_C6_betting_round_complete (s : GameState) :
    isBettingRoundComplete s = true ↔
      ((s.players.filter fun p => p.isActive && !p.isFolded).length ≤ 1 ∨
        ∀ p ∈ s.players.filter fun p => p.isActive && !p.isFolded,
          p.currentBet = getCurrentBet s ∨ p.isAllIn = true) := by
  unfold isBettingRoundComplete
  dsimp only
  split
  · rename_i hle
    simp only [true_iff]
    exact Or.inl hle
  · rename_i hgt
    simp only [List.all_eq_true, Bool.or_eq_true, decide_eq_true_eq]
    constructor
    · intro h
      exact Or.inr h
    · rintro (hle | h)
      · exact absurd hle hgt
      · exact h

/-- Witness for C6 at the concrete hand-start state (all bets zero, three
active seats, so the round counts as complete). -/
theorem spec_C6_witness :
    isBettingRoundComplete blindState = true ↔
      ((blindState.players.filter fun p => p.isActive && !p.isFolded).length ≤ 1 ∨
        ∀ p ∈ blindState.players.filter fun p => p.isActive && !p.isFolded,
          p.currentBet = getCurrentBet blindState ∨ p.isAllIn = true) :=
  spec_C6_betting_round_complete blindState

/-- C9: drawing from an empty deck yields no card (the JS function logs the
deck-exhausted error and returns null, modelled as `none`); on a non-empty
deck the top (last) card is removed and returned. -/
theorem spec_C9_deal_card :
    dealCard ([] : List Card) = none ∧
    ∀ deck : List Card, deck ≠ [] →
      ∃ top rest, dealCard deck = some (top, rest) ∧ deck = rest ++ [top] := by
  refine ⟨rfl, ?_⟩
  intro deck hne
  refine ⟨deck.getLast hne, deck.dropLast, ?_, (List.dropLast_append_getLast hne).symm⟩
  unfold dealCard
  rw [if_neg (by simpa using hne), List.getLast?_eq_getLast_of_ne_nil hne]
  rfl

/-- Witness for C9 at a one-card deck. -/
theorem spec_C9_witness :
    dealCard ([] : List Card) = none ∧
    ∃ top rest, dealCard [(⟨14, Suit.spades⟩ : Card)] = some (top, rest) ∧
      [(⟨14, Suit.spades⟩ : Card)] = rest ++ [top] :=
  ⟨spec_C9_deal_card.1, spec_C9_deal_card.2 _ (by decide)⟩

/-- C7 (amended): at hand start with at least two active players, when the
seats after the dealer are active, the seat after the dealer posts the small
blind and the next seat the big blind; each blind is clamped to
min(blind, stack), removed from the stack and written to the pot, the
poster's current-round bet and total invested; all other seats are untouched
and the first actor becomes dealer+3.  A blind that consumes the poster's
entire stack leaves zero chips but does NOT set the all-in flag — the flag is
only set by a later call/raise of that seat. -/
theorem spec_C7_post_blinds (s : GameState) (psb pbb : Player)
    (hact : 2 ≤ (s.players.filter (·.isActive)).length)
    (hsb : s.players[(s.dealerPosition + 1) % s.players.length]? = some psb)
    (hbb : s.players[(s.dealerPosition + 2) % s.players.length]? = some pbb)
    (hsba : psb.isActive = true) (hbba : pbb.isActive = true) :
    (postBlinds s).players[(s.dealerPosition + 1) % s.players.length]? =
      some { psb with
        chips := psb.chips - (min s.smallBlind psb.chips),
        currentBet := min s.smallBlind psb.chips,
        totalInvested := min s.smallBlind psb.chips } ∧
    (postBlinds s).players[(s.dealerPosition + 2) % s.players.length]? =
      some { pbb with
        chips := pbb.chips - (min s.bigBlind pbb.chips),
        currentBet := min s.bigBlind pbb.chips,
        totalInvested := min s.bigBlind pbb.chips } ∧
    (postBlinds s).pot = s.pot + min s.smallBlind psb.chips + min s.bigBlind pbb.chips ∧
    (∀ j, j ≠ (s.dealerPosition + 1) % s.players.length →
      j ≠ (s.dealerPosition + 2) % s.players.length →
      (postBlinds s).players[j]? = s.players[j]?) ∧
    (postBlinds s).currentPlayerIndex = (s.dealerPosition + 3) % s.players.length ∧
    (psb.chips ≤ s.smallBlind →
      ∃ p', (postBlinds s).players[(s.dealerPosition + 1) % s.players.length]? = some p' ∧
        p'.chips = 0 ∧ p'.isAllIn = psb.isAllIn) := by
  have hn : 2 ≤ s.players.length :=
    le_trans hact (List.length_filter_le _ _)
  have hsblt : (s.dealerPosition + 1) % s.players.length < s.players.length :=
    (List.getElem?_eq_some.mp hsb).1
  have hbblt : (s.dealerPosition + 2) % s.players.length < s.players.length :=
    (List.getElem?_eq_some.mp hbb).1
  have hne : (s.dealerPosition + 1) % s.players.length ≠
      (s.dealerPosition + 2) % s.players.length := by
    intro heq
    have h2 : (s.dealerPosition + 2) % s.players.length =
        ((s.dealerPosition + 1) % s.players.length + 1 % s.players.length) %
          s.players.length :=
      Nat.add_mod (s.dealerPosition + 1) 1 s.players.length
    rw [Nat.mod_eq_of_lt (show 1 < s.players.length by omega)] at h2
    have key : (s.dealerPosition + 1) % s.players.length =
        ((s.dealerPosition + 1) % s.players.length + 1) % s.players.length :=
      heq.trans h2
    by_cases hlt : (s.dealerPosition + 1) % s.players.length + 1 < s.players.length
    · rw [Nat.mod_eq_of_lt hlt] at key
      omega
    · have hEq : (s.dealerPosition + 1) % s.players.length + 1 = s.players.length := by
        omega
      rw [hEq, Nat.mod_self] at key
      omega
  have hP : postBlinds s =
      { s with
        players := (s.players.set ((s.dealerPosition + 1) % s.players.length)
          { psb with
            chips := psb.chips - (min s.smallBlind psb.chips),
            currentBet := min s.smallBlind psb.chips,
            totalInvested := min s.smallBlind psb.chips }).set
            ((s.dealerPosition + 2) % s.players.length)
          { pbb with
            chips := pbb.chips - (min s.bigBlind pbb.chips),
            currentBet := min s.bigBlind pbb.chips,
            totalInvested := min s.bigBlind pbb.chips },
        pot := s.pot + min s.smallBlind psb.chips + min s.bigBlind pbb.chips,
        currentPlayerIndex := (s.dealerPosition + 3) % s.players.length } := by
    unfold postBlinds
    rw [if_neg (not_lt.mpr hact)]
    dsimp only
    unfold postOneBlind
    rw [hsb]
    dsimp only
    rw [if_pos hsba]
    dsimp only
    rw [List.getElem?_set_ne hne, hbb]
    dsimp only
    rw [if_pos hbba]
  rw [hP]
  dsimp only
  refine ⟨?_, ?_, rfl, ?_, rfl, ?_⟩
  · rw [List.getElem?_set_ne (Ne.symm hne), List.getElem?_set_eq_of_lt _ hsblt]
  · rw [List.getElem?_set_eq_of_lt _ (by rwa [List.length_set])]
  · intro j hj1 hj2
    rw [List.getElem?_set_ne (Ne.symm hj2), List.getElem?_set_ne (Ne.symm hj1)]
  · intro hle
    refine ⟨{ psb with
        chips := psb.chips - (min s.smallBlind psb.chips),
        currentBet := min s.smallBlind psb.chips,
        totalInvested := min s.smallBlind psb.chips }, ?_, ?_, rfl⟩
    · rw [List.getElem?_set_ne (Ne.symm hne), List.getElem?_set_eq_of_lt _ hsblt]
    · dsimp only
      rw [min_eq_right hle]
      exact sub_self _

/-- Counterexample for C7: in `blindState` the seat after the dealer has 3
chips against a small blind of 5; `postBlinds` takes its whole stack (3,
leaving 0) but does not set the all-in flag, contradicting the claim that a
stack-consuming blind forces the poster immediately all-in. -/
theorem spec_C7_counterexample :
    ((postBlinds blindState).players[1]?.map fun p => (p.chips, p.isAllIn)) =
      some (0, false) := by
  norm_num [postBlinds, postOneBlind, blindState, blindSeat0, blindSeat1, blindSeat2]

/-- Witness for C7 (amended) at `blindState`. -/
theorem spec_C7_witness :
    (postBlinds blindState).players[(blindState.dealerPosition + 1) %
        blindState.players.length]? =
      some { blindSeat1 with
        chips := blindSeat1.chips - (min blindState.smallBlind blindSeat1.chips),
        currentBet := min blindState.smallBlind blindSeat1.chips,
        totalInvested := min blindState.smallBlind blindSeat1.chips } ∧
    (postBlinds blindState).players[(blindState.dealerPosition + 2) %
        blindState.players.length]? =
      some { blindSeat2 with
        chips := blindSeat2.chips - (min blindState.bigBlind blindSeat2.chips),
        currentBet := min blindState.bigBlind blindSeat2.chips,
        totalInvested := min blindState.bigBlind blindSeat2.chips } ∧
    (postBlinds blindState).pot = blindState.pot +
      min blindState.smallBlind blindSeat1.chips +
      min blindState.bigBlind blindSeat2.chips ∧
    (∀ j, j ≠ (blindState.dealerPosition + 1) % blindState.players.length →
      j ≠ (blindState.dealerPosition + 2) % blindState.players.length →
      (postBlinds blindState).players[j]? = blindState.players[j]?) ∧
    (postBlinds blindState).currentPlayerIndex =
      (blindState.dealerPosition + 3) % blindState.players.length ∧
    (blindSeat1.chips ≤ blindState.smallBlind →
      ∃ p', (postBlinds blindState).players[(blindState.dealerPosition + 1) %
          blindState.players.length]? = some p' ∧
        p'.chips = 0 ∧ p'.isAllIn = blindSeat1.isAllIn) :=
  spec_C7_post_blinds blindState blindSeat1 blindSeat2 (by decide) (by decide)
    (by decide) (by decide) (by decide)

/-! ## Showdown distribution lemmas -/

instance : IsTotal (Nat × HandResult) handDescOrder :=
  ⟨fun a b => by
    unfold handDescOrder
    have := compareHands_neg a.2 b.2
    omega⟩

instance : IsTrans (Nat × HandResult) handDescOrder :=
  ⟨fun a b c hab hbc => by
    unfold handDescOrder at hab hbc ⊢
    have h1 : 0 ≤ compareHands a.2 b.2 := by
      have := compareHands_neg a.2 b.2
      omega
    have h2 : 0 ≤ compareHands b.2 c.2 := by
      have := compareHands_neg b.2 c.2
      omega
    have h3 := compareHands_trans a.2 b.2 c.2 h1 h2
    have := compareHands_neg a.2 c.2
    omega⟩

theorem getBestFiveCardHand_isSome (p c : List Card) :
    ∃ h, getBestFiveCardHand p c = some h := by
  unfold getBestFiveCardHand
  by_cases hlen : (p ++ c).length < 5
  · rw [if_pos hlen]
    exact ⟨_, rfl⟩
  · rw [if_neg hlen]
    have hlen5 : 5 ≤ (p ++ c).length := by omega
    have htake : (p ++ c).take 5 ∈ generateCombinations (p ++ c) 5 :=
      (mem_generateCombinations 5 _ _ (by omega)).mpr
        ⟨List.take_sublist _ _, by rw [List.length_take]; omega⟩
    match hcombos : generateCombinations (p ++ c) 5 with
    | [] => rw [hcombos] at htake; cases htake
    | c0 :: rest =>
      obtain ⟨h', hrun, _, _⟩ := bestLoop_start c0 rest
      exact ⟨h', hrun⟩

theorem mapM_hands_isSome (comm : List Card) :
    ∀ l : List (Nat × Player),
      ∃ res, l.mapM (fun ip =>
        (getBestFiveCardHand ip.2.cards comm).map fun h => (ip.1, h)) = some res := by
  intro l
  induction l with
  | nil => exact ⟨[], rfl⟩
  | cons ip rest ih =>
    obtain ⟨res, hres⟩ := ih
    obtain ⟨h, hh⟩ := getBestFiveCardHand_isSome ip.2.cards comm
    refine ⟨(ip.1, h) :: res, ?_⟩
    rw [List.mapM_cons, hh, hres]
    rfl

theorem forall₂_mem_left {α β : Type} {R : α → β → Prop} :
    ∀ {l : List α} {res : List β}, List.Forall₂ R l res →
      ∀ a ∈ l, ∃ b ∈ res, R a b := by
  intro l res h
  induction h with
  | nil => intro a ha; cases ha
  | cons hR _ ih =>
    intro a ha
    rcases List.mem_cons.mp ha with rfl | ha
    · exact ⟨_, List.mem_cons_self _ _, hR⟩
    · obtain ⟨b, hb, hab⟩ := ih a ha
      exact ⟨b, List.mem_cons_of_mem _ hb, hab⟩

theorem forall₂_filter {α β : Type} {R : α → β → Prop} (p : α → Bool) (q : β → Bool) :
    ∀ {l : List α} {res : List β}, List.Forall₂ R l res →
      (∀ a b, R a b → a ∈ l → b ∈ res → (p a = true ↔ q b = true)) →
      List.Forall₂ R (l.filter p) (res.filter q) := by
  intro l res h
  induction h with
  | nil => intro _; exact List.Forall₂.nil
  | @cons a b l' res' hR hrest ih =>
    intro hpq
    have hiff := hpq a b hR (List.mem_cons_self _ _) (List.mem_cons_self _ _)
    have htail := ih fun x y hxy hx hy =>
      hpq x y hxy (List.mem_cons_of_mem _ hx) (List.mem_cons_of_mem _ hy)
    by_cases hp : p a = true
    · rw [List.filter_cons_of_pos hp, List.filter_cons_of_pos (hiff.mp hp)]
      exact List.Forall₂.cons hR htail
    · rw [List.filter_cons_of_neg hp,
        List.filter_cons_of_neg (fun hq => hp (hiff.mpr hq))]
      exact htail

theorem forall₂_length_eq {α β : Type} {R : α → β → Prop}
    {l : List α} {res : List β} (h : List.Forall₂ R l res) :
    l.length = res.length := by
  induction h with
  | nil => rfl
  | cons _ _ ih => simpa using ih

theorem contendersOf_fst_nodup (s : GameState) :
    ((contendersOf s).map Prod.fst).Nodup := by
  unfold contendersOf
  have h1 := (List.filter_sublist
    (p := fun ip : Nat × Player => ip.2.isActive && !ip.2.isFolded)
    s.players.enum).map Prod.fst
  have h3 : s.players.enum.map Prod.fst = List.range s.players.length :=
    List.enum_map_fst s.players
  rw [h3] at h1
  exact h1.nodup (List.nodup_range _)

theorem payWinners_getElem_notmem (ws : List (Nat × HandResult)) (amt : ℚ) :
    ∀ (players : List Player) (i : Nat), i ∉ ws.map Prod.fst →
      (payWinners players ws amt)[i]? = players[i]? := by
  induction ws with
  | nil => intro players i _; rfl
  | cons w rest ih =>
    intro players i hi
    simp only [List.map_cons, List.mem_cons, not_or] at hi
    unfold payWinners
    rw [List.foldl_cons]
    have hrec := ih (match players[w.1]? with
      | some p => players.set w.1 { p with chips := p.chips + amt }
      | none => players) i (by simpa using hi.2)
    unfold payWinners at hrec
    rw [hrec]
    match hw : players[w.1]? with
    | some p => exact List.getElem?_set_ne (fun h => hi.1 h.symm)
    | none => rfl

theorem payWinners_getElem (amt : ℚ) :
    ∀ (ws : List (Nat × HandResult)) (players : List Player),
      (ws.map Prod.fst).Nodup →
      ∀ (i : Nat) (p : Player), players[i]? = some p →
        (payWinners players ws amt)[i]? =
          if i ∈ ws.map Prod.fst then some { p with chips := p.chips + amt }
          else some p := by
  intro ws
  induction ws with
  | nil => intro players _ i p hp; simpa [payWinners] using hp
  | cons w rest ih =>
    intro players hnodup i p hp
    simp only [List.map_cons, List.nodup_cons] at hnodup
    unfold payWinners
    rw [List.foldl_cons]
    by_cases hiw : i = w.1
    · have hw' : players[w.1]? = some p := by rw [← hiw]; exact hp
      rw [hw']
      dsimp only
      have hstep := payWinners_getElem_notmem rest amt
        (players.set w.1 { p with chips := p.chips + amt }) i
        (by rw [hiw]; simpa using hnodup.1)
      unfold payWinners at hstep
      rw [hstep, hiw, List.getElem?_set_eq_of_lt _ (List.getElem?_eq_some.mp hw').1]
      simp
    · match hw : players[w.1]? with
      | some q =>
        have hrec := ih (players.set w.1 { q with chips := q.chips + amt }) hnodup.2 i p
          (by rw [List.getElem?_set_ne (fun h => hiw h.symm)]; exact hp)
        unfold payWinners at hrec
        rw [hrec]
        exact if_congr (by simp [List.mem_cons, hiw]) rfl rfl
      | none =>
        have hrec := ih players hnodup.2 i p hp
        unfold payWinners at hrec
        rw [hrec]
        exact if_congr (by simp [List.mem_cons, hiw]) rfl rfl

theorem forall₂_hands_fst_eq {comm : List Card} :
    ∀ {l : List (Nat × Player)} {res : List (Nat × HandResult)},
      List.Forall₂
        (fun ip ph => ph.1 = ip.1 ∧ getBestFiveCardHand ip.2.cards comm = some ph.2)
        l res →
      res.map Prod.fst = l.map Prod.fst := by
  intro l res h
  induction h with
  | nil => rfl
  | cons hR _ ih => simp [ih, hR.1]

/-- C5: at showdown with at least one non-folded active seat and an integral
pot, the result exists, its pot is zero, a single remaining seat receives the
entire pot, and otherwise every seat tied for the maximal hand under
`compareHands` receives floor(pot / number-of-winners). -/
theorem spec_C5_showdown_distribution (s : GameState)
    (hne : contendersOf s ≠ [])
    (hint : s.pot = jsFloor s.pot) :
    ∃ s', showdown s = some s' ∧ s'.pot = 0 ∧
      ((contendersOf s).length = 1 →
        ∀ ip ∈ contendersOf s,
          s'.players[ip.1]? = some { ip.2 with
            chips := ip.2.chips + s.pot }) ∧
      (2 ≤ (contendersOf s).length →
        ∀ ip ∈ specWinners s,
          s'.players[ip.1]? = some { ip.2 with
            chips := ip.2.chips +
              jsFloor (s.pot / (((specWinners s).length : Nat) : ℚ)) }) := by
  have hcs : contendersOf { s with gamePhase := Phase.showdownPhase } =
      contendersOf s := rfl
  match hcont : contendersOf s with
  | [] => exact absurd hcont hne
  | [a] =>
    have ha : s.players[a.1]? = some a.2 :=
      contendersOf_index s a (by rw [hcont]; exact List.mem_cons_self _ _)
    have halt : a.1 < s.players.length := (List.getElem?_eq_some.mp ha).1
    refine ⟨awardPot { s with gamePhase := Phase.showdownPhase } a.1, ?_, ?_, ?_, ?_⟩
    · unfold showdown
      dsimp only
      rw [hcs, hcont]
    · unfold awardPot
      rw [show ({ s with gamePhase := Phase.showdownPhase } : GameState).players = s.players from rfl, ha]
    · intro _ ip hip
      rw [List.mem_singleton] at hip
      subst hip
      unfold awardPot
      rw [show ({ s with gamePhase := Phase.showdownPhase } : GameState).players = s.players from rfl, ha]
      dsimp only
      rw [List.getElem?_set_eq_of_lt _ halt]
    · intro h2
      simp at h2
  | a :: b :: rest =>
    have hlen2 : 2 ≤ (a :: b :: rest).length := by simp
    obtain ⟨playerHands, hmapM⟩ := mapM_hands_isSome s.communityCards (a :: b :: rest)
    have hforall := mapM_hands_spec s.communityCards (a :: b :: rest) playerHands hmapM
    have hperm := List.perm_insertionSort handDescOrder playerHands
    have hsortedlen : (playerHands.insertionSort handDescOrder).length =
        playerHands.length := hperm.length_eq
    have hphlen : playerHands.length = (a :: b :: rest).length :=
      (forall₂_length_eq hforall).symm
    match hsorted : playerHands.insertionSort handDescOrder with
    | [] =>
      rw [hsorted] at hsortedlen
      rw [hphlen] at hsortedlen
      simp at hsortedlen
    | best :: sortedRest =>
      have hpermS : (best :: sortedRest).Perm playerHands := by
        rw [← hsorted]; exact hperm
      have hSsorted : List.Sorted handDescOrder (best :: sortedRest) := by
        rw [← hsorted]; exact List.sorted_insertionSort handDescOrder playerHands
      have hbest_ge : ∀ x ∈ best :: sortedRest, 0 ≤ compareHands best.2 x.2 := by
        intro x hx
        rcases List.mem_cons.mp hx with rfl | hx
        · rw [compareHands_self]
        · have hord := List.rel_of_sorted_cons hSsorted x hx
          unfold handDescOrder at hord
          have := compareHands_neg best.2 x.2
          omega
      have hconthand : ∀ jq ∈ a :: b :: rest, ∃ ph ∈ best :: sortedRest,
          ph.2 = contenderHand s jq := by
        intro jq hjq
        obtain ⟨ph, hph, hR⟩ := forall₂_mem_left hforall jq hjq
        refine ⟨ph, hpermS.mem_iff.mpr hph, ?_⟩
        unfold contenderHand
        rw [hR.2]
        rfl
      obtain ⟨ipb, hipb, hRb⟩ := forall₂_mem_right hforall best
        (hpermS.mem_iff.mp (List.mem_cons_self _ _))
      have hbridge : ∀ (ip : Nat × Player) (ph : Nat × HandResult),
          ph.1 = ip.1 ∧
            getBestFiveCardHand ip.2.cards s.communityCards = some ph.2 →
          ip ∈ a :: b :: rest → ph ∈ playerHands →
          (((a :: b :: rest).all fun jq =>
              decide (0 ≤ compareHands (contenderHand s ip) (contenderHand s jq))) = true ↔
            decide (compareHands ph.2 best.2 = 0) = true) := by
        intro ip ph hR hipmem hphmem
        have hhand : contenderHand s ip = ph.2 := by
          unfold contenderHand; rw [hR.2]; rfl
        have hb2 : contenderHand s ipb = best.2 := by
          unfold contenderHand; rw [hRb.2]; rfl
        rw [List.all_eq_true]
        simp only [decide_eq_true_eq]
        constructor
        · intro hall
          have h1 : 0 ≤ compareHands ph.2 best.2 := by
            have := hall ipb hipb
            rwa [hhand, hb2] at this
          have h2 : 0 ≤ compareHands best.2 ph.2 :=
            hbest_ge ph (hpermS.mem_iff.mpr hphmem)
          have := compareHands_neg ph.2 best.2
          omega
        · intro heq jq hjq
          obtain ⟨ph2, hph2, hph2hand⟩ := hconthand jq hjq
          rw [hhand, ← hph2hand]
          have h1 : 0 ≤ compareHands ph.2 best.2 := le_of_eq heq.symm
          have h2 : 0 ≤ compareHands best.2 ph2.2 := hbest_ge ph2 hph2
          exact compareHands_trans _ _ _ h1 h2
      have hwf : List.Forall₂ (fun ip ph => ph.1 = ip.1 ∧
            getBestFiveCardHand ip.2.cards s.communityCards = some ph.2)
          (specWinners s)
          (playerHands.filter fun ph => decide (compareHands ph.2 best.2 = 0)) := by
        unfold specWinners
        rw [hcont]
        exact forall₂_filter _ _ hforall hbridge
      have hwinperm :
          (playerHands.filter fun ph => decide (compareHands ph.2 best.2 = 0)).Perm
            ((best :: sortedRest).filter fun ph =>
              decide (compareHands ph.2 best.2 = 0)) :=
        (hpermS.filter _).symm
      have hpredbest : decide (compareHands best.2 best.2 = 0) = true := by
        simp [compareHands_self]
      have hwincons : (best :: sortedRest).filter
            (fun ph => decide (compareHands ph.2 best.2 = 0)) =
          best :: sortedRest.filter (fun ph => decide (compareHands ph.2 best.2 = 0)) := by
        rw [List.filter_cons, if_pos hpredbest]
      have hfstnodup : ((best :: sortedRest).map Prod.fst).Nodup := by
        have h1 : playerHands.map Prod.fst = (a :: b :: rest).map Prod.fst :=
          forall₂_hands_fst_eq hforall
        have h2 : (((best :: sortedRest).map Prod.fst).Perm
            (playerHands.map Prod.fst)) := hpermS.map _
        rw [h1] at h2
        have h3 : ((a :: b :: rest).map Prod.fst).Nodup := by
          rw [← hcont]; exact contendersOf_fst_nodup s
        exact h2.nodup_iff.mpr h3
      match hrf : sortedRest.filter (fun ph => decide (compareHands ph.2 best.2 = 0)) with
      | [] =>
        have hwone : (best :: sortedRest).filter
            (fun ph => decide (compareHands ph.2 best.2 = 0)) = [best] := by
          rw [hwincons, hrf]
        have hfone : (playerHands.filter fun ph =>
            decide (compareHands ph.2 best.2 = 0)) = [best] := by
          have h := hwinperm
          rw [hwone] at h
          exact List.perm_singleton.mp h
        rw [hfone] at hwf
        have hsw : ∀ ip ∈ specWinners s, best.1 = ip.1 ∧
            getBestFiveCardHand ip.2.cards s.communityCards = some best.2 := by
          intro ip hip
          obtain ⟨ph, hph, hR⟩ := forall₂_mem_left hwf ip hip
          rw [List.mem_singleton] at hph
          subst hph
          exact hR
        have hswlen : (specWinners s).length = 1 := by
          have := forall₂_length_eq hwf
          simpa using this
        refine ⟨awardPot { s with gamePhase := Phase.showdownPhase } best.1, ?_, ?_, ?_, ?_⟩
        · unfold showdown
          dsimp only
          rw [hcs, hcont]
          dsimp only
          unfold evaluateWinner
          rw [show ({ s with gamePhase := Phase.showdownPhase } :
            GameState).communityCards = s.communityCards from rfl, hmapM]
          dsimp only
          rw [hsorted]
          dsimp only
          rw [hwone]
        · have hlookb : s.players[best.1]? = some ipb.2 := by
            rw [hRb.1]
            exact contendersOf_index s ipb (by rw [hcont]; exact hipb)
          unfold awardPot
          rw [show ({ s with gamePhase := Phase.showdownPhase } :
            GameState).players = s.players from rfl, hlookb]
        · intro h1
          simp at h1
        · intro _ ip hip
          obtain ⟨hfst, _⟩ := hsw ip hip
          have hipc : ip ∈ contendersOf s := by
            have := hip
            unfold specWinners at this
            exact List.mem_of_mem_filter this
          have hlook : s.players[ip.1]? = some ip.2 := contendersOf_index s ip hipc
          have hamt : jsFloor (s.pot / (((specWinners s).length : Nat) : ℚ)) = s.pot := by
            rw [hswlen]
            simp only [Nat.cast_one, div_one]
            exact hint.symm
          unfold awardPot
          rw [show ({ s with gamePhase := Phase.showdownPhase } :
            GameState).players = s.players from rfl, hfst, hlook]
          dsimp only
          rw [List.getElem?_set_eq_of_lt _ (List.getElem?_eq_some.mp hlook).1, hamt]
      | w2 :: more =>
        have hwmany : (best :: sortedRest).filter
            (fun ph => decide (compareHands ph.2 best.2 = 0)) = best :: w2 :: more := by
          rw [hwincons, hrf]
        have hwinnodup : ((best :: w2 :: more).map Prod.fst).Nodup := by
          rw [← hwmany]
          exact ((List.filter_sublist _).map Prod.fst).nodup hfstnodup
        have hlencode : (specWinners s).length = (best :: w2 :: more).length := by
          rw [forall₂_length_eq hwf, hwinperm.length_eq, hwmany]
        refine ⟨{ s with
            gamePhase := Phase.showdownPhase
            players := payWinners s.players (best :: w2 :: more)
              (jsFloor (s.pot / (((best :: w2 :: more).length : Nat) : ℚ)))
            pot := 0 }, ?_, rfl, ?_, ?_⟩
        · unfold showdown
          dsimp only
          rw [hcs, hcont]
          dsimp only
          unfold evaluateWinner
          rw [show ({ s with gamePhase := Phase.showdownPhase } :
            GameState).communityCards = s.communityCards from rfl, hmapM]
          dsimp only
          rw [hsorted]
          dsimp only
          rw [hwmany]
        · intro h1
          simp at h1
        · intro _ ip hip
          have hipc : ip ∈ contendersOf s := by
            have := hip
            unfold specWinners at this
            exact List.mem_of_mem_filter this
          have hlook : s.players[ip.1]? = some ip.2 := contendersOf_index s ip hipc
          obtain ⟨ph, hphf, hR⟩ := forall₂_mem_left hwf ip hip
          have hphcode : ph ∈ best :: w2 :: more := by
            rw [← hwmany]
            exact hwinperm.mem_iff.mp hphf
          have hmem : ip.1 ∈ (best :: w2 :: more).map Prod.fst := by
            rw [← hR.1]
            exact List.mem_map_of_mem Prod.fst hphcode
          dsimp only
          rw [payWinners_getElem _ _ _ hwinnodup ip.1 ip.2 hlook, if_pos hmem, hlencode]
    

theorem spec_C5_witness :
    contendersOf splitState ≠ [] ∧ splitState.pot = jsFloor splitState.pot ∧
    (∃ s', showdown splitState = some s' ∧ s'.pot = 0 ∧
      ((contendersOf splitState).length = 1 →
        ∀ ip ∈ contendersOf splitState,
          s'.players[ip.1]? = some { ip.2 with
            chips := ip.2.chips + splitState.pot }) ∧
      (2 ≤ (contendersOf splitState).length →
        ∀ ip ∈ specWinners splitState,
          s'.players[ip.1]? = some { ip.2 with
            chips := ip.2.chips +
              jsFloor (splitState.pot /
                (((specWinners splitState).length : Nat) : ℚ)) })) :=
  ⟨fun h => absurd (congrArg List.length h) (by decide),
   by norm_num [splitState, jsFloor],
   spec_C5_showdown_distribution splitState
     (fun h => absurd (congrArg List.length h) (by decide))
     (by norm_num [splitState, jsFloor])⟩

set_option maxHeartbeats 1000000 in
/-- C8: counterexample.  With a 5-chip stack holding the nut royal flush and
facing a bet of 100, the decision agent returns a raise whose call amount plus
returned raise amount (100 + 34969/20000) far exceeds the 5-chip stack, so the
claimed agent-side stack bound is false. -/
theorem spec_C8_counterexample :
    (makeDecision c8AI c8View c8Hero (fun _ => 1/2) 0).1.action = BetAction.raise ∧
    ∃ amt, (makeDecision c8AI c8View c8Hero (fun _ => 1/2) 0).1.amount = some amt ∧
      c8Hero.chips < (c8View.currentBet - c8Hero.currentBet) + amt := by
  have hbest : getBestFiveCardHand [(⟨14, Suit.spades⟩ : Card), ⟨13, Suit.spades⟩]
      [⟨12, Suit.spades⟩, ⟨11, Suit.spades⟩, ⟨10, Suit.spades⟩] =
      some ⟨10, "Royal Flush", [14],
        [⟨14, Suit.spades⟩, ⟨13, Suit.spades⟩, ⟨12, Suit.spades⟩,
          ⟨11, Suit.spades⟩, ⟨10, Suit.spades⟩]⟩ := by decide
  have hhs : getHandStrength [(⟨14, Suit.spades⟩ : Card), ⟨13, Suit.spades⟩]
      [⟨12, Suit.spades⟩, ⟨11, Suit.spades⟩, ⟨10, Suit.spades⟩] = 1 := by
    unfold getHandStrength
    rw [hbest]
    dsimp only
    rw [min_eq_right (by norm_num [show baseStrength 10 = 1 from rfl])]
  have hd : makeDecision c8AI c8View c8Hero (fun _ => 1/2) 0 =
      ({ action := BetAction.raise, amount := some (34969/20000), isBluff := false }, 2) := by
    simp only [makeDecision, c8AI, c8View, c8Hero, aggressivePersonality, difficulty3, hhs]
    norm_num [getBaseDecision, applyPersonalityAdjustments, applyDifficultyAdjustments,
      shouldBluff, calculateRaiseSize,
      show (Phase.flop = Phase.preflop) = False from eq_false (by decide)]
  rw [hd]
  exact ⟨rfl, 34969/20000, rfl, by norm_num [c8Hero, c8View]⟩

/-- C8 (amended): the stack bound is enforced by the engine, not by the agent.
Whatever raise amount the agent returns, `executePlayerAction` clamps the
chips moved at min(call + raise, stack): the seat ends with a non-negative
stack, at most its whole stack moves, and exactly the clamped amount reaches
the pot. -/
theorem spec_C8_raise_clamped (s : GameState) (i : Nat) (amount : ℚ) (p : Player)
    (hp : s.players[i]? = some p) :
    ∃ p', (executePlayerAction s i BetAction.raise amount).players[i]? = some p' ∧
      p'.chips = p.chips - min (getCurrentBet s - p.currentBet + amount) p.chips ∧
      0 ≤ p'.chips ∧
      min (getCurrentBet s - p.currentBet + amount) p.chips ≤ p.chips ∧
      (executePlayerAction s i BetAction.raise amount).pot =
        s.pot + min (getCurrentBet s - p.currentBet + amount) p.chips := by
  have hilt : i < s.players.length := (List.getElem?_eq_some.mp hp).1
  unfold executePlayerAction
  rw [hp]
  dsimp only
  by_cases hz : p.chips - min (getCurrentBet s - p.currentBet + amount) p.chips = 0
  · rw [if_pos hz]
    exact ⟨_, by rw [List.getElem?_set_eq_of_lt _ hilt], rfl,
      sub_nonneg.mpr (min_le_right _ _), min_le_right _ _, rfl⟩
  · rw [if_neg hz]
    exact ⟨_, by rw [List.getElem?_set_eq_of_lt _ hilt], rfl,
      sub_nonneg.mpr (min_le_right _ _), min_le_right _ _, rfl⟩

theorem spec_C8_witness :
    splitState.players[0]? = some splitSeat0 ∧
    (∃ p', (executePlayerAction splitState 0 BetAction.raise 50).players[0]? = some p' ∧
      p'.chips = splitSeat0.chips -
        min (getCurrentBet splitState - splitSeat0.currentBet + 50) splitSeat0.chips ∧
      0 ≤ p'.chips ∧
      min (getCurrentBet splitState - splitSeat0.currentBet + 50) splitSeat0.chips ≤
        splitSeat0.chips ∧
      (executePlayerAction splitState 0 BetAction.raise 50).pot =
        splitState.pot +
          min (getCurrentBet splitState - splitSeat0.currentBet + 50) splitSeat0.chips) :=
  ⟨rfl, spec_C8_raise_clamped splitState 0 50 splitSeat0 rfl⟩

theorem getFlushCards_length (cards : List ECard) :
    ∀ g ∈ getFlushCards cards, g.2.length ≤ cards.length := by
  intro g hg
  unfold getFlushCards at hg
  obtain ⟨s, hs, rfl⟩ := List.mem_map.mp hg
  dsimp only
  rw [(List.perm_insertionSort rankDescOrder _).length_eq]
  exact List.length_filter_le _ _

theorem checkRoyalFlush_none (cards : List ECard) (h : cards.length < 5) :
    checkRoyalFlush cards = none := by
  have hfind : (getFlushCards cards).find?
      (fun g => decide (5 ≤ g.2.length) && royalRanks g.2) = none := by
    rw [List.find?_eq_none]
    intro g hg hcontra
    rw [Bool.and_eq_true, decide_eq_true_eq] at hcontra
    have := getFlushCards_length cards g hg
    omega
  unfold checkRoyalFlush
  rw [hfind]

theorem checkStraightFlush_none (cards : List ECard) (h : cards.length < 5) :
    checkStraightFlush cards = none := by
  have hfind : (getFlushCards cards).find?
      (fun g => decide (5 ≤ g.2.length) && (findStraight g.2).isSome) = none := by
    rw [List.find?_eq_none]
    intro g hg hcontra
    rw [Bool.and_eq_true, decide_eq_true_eq] at hcontra
    have := getFlushCards_length cards g hg
    omega
  unfold checkStraightFlush
  rw [hfind]

theorem checkFlush_none (cards : List ECard) (h : cards.length < 5) :
    checkFlush cards = none := by
  have hfind : (getFlushCards cards).find? (fun g => decide (5 ≤ g.2.length)) = none := by
    rw [List.find?_eq_none]
    intro g hg hcontra
    rw [decide_eq_true_eq] at hcontra
    have := getFlushCards_length cards g hg
    omega
  unfold checkFlush
  rw [hfind]

theorem getRankCounts_count (cards : List ECard) :
    ∀ rc ∈ getRankCounts cards, rc.2 = (cards.filter (·.rank = rc.1)).length := by
  intro rc hrc
  unfold getRankCounts at hrc
  obtain ⟨r, hr, rfl⟩ := List.mem_map.mp hrc
  rfl

theorem checkFourOfAKind_none (cards : List ECard) (h : cards.length < 4) :
    checkFourOfAKind cards = none := by
  have hfind : (getRankCounts cards).find? (fun rc => decide (4 ≤ rc.2)) = none := by
    rw [List.find?_eq_none]
    intro rc hrc hcontra
    rw [decide_eq_true_eq] at hcontra
    have h1 := getRankCounts_count cards rc hrc
    have h2 := List.length_filter_le (fun c => decide (c.rank = rc.1)) cards
    omega
  unfold checkFourOfAKind
  rw [hfind]

theorem checkFullHouse_none (cards : List ECard) (h : cards.length < 3) :
    checkFullHouse cards = none := by
  have hfind : (getRankCounts cards).find? (fun rc => decide (3 ≤ rc.2)) = none := by
    rw [List.find?_eq_none]
    intro rc hrc hcontra
    rw [decide_eq_true_eq] at hcontra
    have h1 := getRankCounts_count cards rc hrc
    have h2 := List.length_filter_le (fun c => decide (c.rank = rc.1)) cards
    omega
  unfold checkFullHouse
  rw [hfind]

theorem checkThreeOfAKind_none (cards : List ECard) (h : cards.length < 3) :
    checkThreeOfAKind cards = none := by
  have hfind : (getRankCounts cards).find? (fun rc => decide (3 ≤ rc.2)) = none := by
    rw [List.find?_eq_none]
    intro rc hrc hcontra
    rw [decide_eq_true_eq] at hcontra
    have h1 := getRankCounts_count cards rc hrc
    have h2 := List.length_filter_le (fun c => decide (c.rank = rc.1)) cards
    omega
  unfold checkThreeOfAKind
  rw [hfind]

theorem findStraight_none (cards : List ECard) (h : cards.length < 5) :
    findStraight cards = none := by
  unfold findStraight
  dsimp only
  have hlen : ((cards.map (·.rank)).dedup).length ≤ cards.length := by
    calc ((cards.map (·.rank)).dedup).length ≤ (cards.map (·.rank)).length :=
          (List.dedup_sublist _).length_le
    _ = cards.length := List.length_map _ _
  rw [if_neg ?wheel]
  case wheel =>
    rintro ⟨h14, h5, h4, h3, h2⟩
    have hsub : ([14, 5, 4, 3, 2] : List Int) ⊆
        ((cards.map (·.rank)).dedup).insertionSort intDescOrder := by
      intro z hz
      simp only [List.mem_cons, List.not_mem_nil, or_false] at hz
      rcases hz with rfl | rfl | rfl | rfl | rfl <;> assumption
    have hsp := (List.nodup_cons.mpr ⟨by decide, by decide⟩ : ([14, 5, 4, 3, 2] : List Int).Nodup)
    have := (hsp.subperm hsub).length_le
    simp at this
    omega
  rw [show (((cards.map (·.rank)).dedup).insertionSort intDescOrder).length - 4 = 0 from by
    rw [List.length_insertionSort]; omega]
  rfl

theorem checkStraight_none (cards : List ECard) (h : cards.length < 5) :
    checkStraight cards = none := by
  unfold checkStraight
  rw [findStraight_none cards h]

theorem getRankCounts_pair_eq (x y : ECard) (heq : x.rank = y.rank) :
    getRankCounts [x, y] = [(y.rank, 2)] := by
  unfold getRankCounts
  simp [heq, List.dedup_cons_of_mem, List.dedup_cons_of_not_mem, List.insertionSort,
    List.orderedInsert, List.filter_cons]

theorem getRankCounts_two_ne (x y : ECard) (hne : x.rank ≠ y.rank) :
    ∀ rc ∈ getRankCounts [x, y], rc.2 ≤ 1 := by
  intro rc hrc
  rw [getRankCounts_count _ rc hrc]
  rcases eq_or_ne x.rank rc.1 with hx | hx <;> rcases eq_or_ne y.rank rc.1 with hy | hy
  · exact absurd (hx.trans hy.symm) hne
  · simp [List.filter_cons, hx, hy]
  · simp [List.filter_cons, hx, hy]
  · simp [List.filter_cons, hx, hy]

theorem checkPair_two_eq (x y : ECard) (heq : x.rank = y.rank) :
    checkPair [x, y] =
      some { rank := 2, name := "Pair", kickers := [y.rank], cards := [x, y] } := by
  unfold checkPair
  rw [getRankCounts_pair_eq x y heq]
  rw [List.find?_cons_of_pos _ (by simp)]
  dsimp only
  simp [List.filter_cons, heq, List.insertionSort, List.orderedInsert]

theorem checkPair_two_ne (x y : ECard) (hne : x.rank ≠ y.rank) :
    checkPair [x, y] = none := by
  have hfind : (getRankCounts [x, y]).find? (fun rc => decide (2 ≤ rc.2)) = none := by
    rw [List.find?_eq_none]
    intro rc hrc hcontra
    rw [decide_eq_true_eq] at hcontra
    have := getRankCounts_two_ne x y hne rc hrc
    omega
  unfold checkPair
  rw [hfind]

theorem checkTwoPair_two_eq (x y : ECard) (heq : x.rank = y.rank) :
    checkTwoPair [x, y] = none := by
  unfold checkTwoPair
  rw [getRankCounts_pair_eq x y heq]
  simp [List.filter_cons, List.insertionSort, List.orderedInsert]

theorem checkTwoPair_two_ne (x y : ECard) (hne : x.rank ≠ y.rank) :
    checkTwoPair [x, y] = none := by
  have hfil : (getRankCounts [x, y]).filter (fun rc => decide (2 ≤ rc.2)) = [] := by
    rw [List.filter_eq_nil_iff]
    intro rc hrc hcontra
    rw [decide_eq_true_eq] at hcontra
    have := getRankCounts_two_ne x y hne rc hrc
    omega
  unfold checkTwoPair
  dsimp only
  rw [hfil]
  rfl

theorem checkHighCard_kickers (cards : List ECard) :
    (checkHighCard cards).kickers.length = min 5 cards.length := by
  unfold checkHighCard
  dsimp only
  rw [List.length_map, List.length_take, List.length_insertionSort]

theorem evaluateHand_two (c1 c2 : Card) :
    (evaluateHand [c1, c2]).rank = (if c1.value = c2.value then 2 else 1) ∧
    (evaluateHand [c1, c2]).kickers.length = (if c1.value = c2.value then 1 else 2) := by
  unfold evaluateHand
  simp only [List.map_cons, List.map_nil]
  by_cases h12 : rankDescOrder (⟨c1.value, c1.suit⟩ : ECard) ⟨c2.value, c2.suit⟩
  · have hsort : List.insertionSort rankDescOrder
        [(⟨c1.value, c1.suit⟩ : ECard), ⟨c2.value, c2.suit⟩] =
        [⟨c1.value, c1.suit⟩, ⟨c2.value, c2.suit⟩] := by
      simp [List.insertionSort, List.orderedInsert, h12]
    rw [hsort]
    rw [checkRoyalFlush_none _ (by simp), checkStraightFlush_none _ (by simp),
      checkFourOfAKind_none _ (by simp), checkFullHouse_none _ (by simp),
      checkFlush_none _ (by simp), checkStraight_none _ (by simp),
      checkThreeOfAKind_none _ (by simp)]
    by_cases hv : c1.value = c2.value
    · rw [checkTwoPair_two_eq _ _ hv, checkPair_two_eq _ _ hv]
      rw [if_pos hv, if_pos hv]
      exact ⟨rfl, rfl⟩
    · rw [checkTwoPair_two_ne _ _ hv, checkPair_two_ne _ _ hv]
      rw [if_neg hv, if_neg hv]
      exact ⟨rfl, by rw [show ((match (none : Option HandResult) with
        | some h => h
        | none => checkHighCard [(⟨c1.value, c1.suit⟩ : ECard), ⟨c2.value, c2.suit⟩]) :
          HandResult) = checkHighCard [⟨c1.value, c1.suit⟩, ⟨c2.value, c2.suit⟩] from rfl,
        checkHighCard_kickers]; simp⟩
  · have hsort : List.insertionSort rankDescOrder
        [(⟨c1.value, c1.suit⟩ : ECard), ⟨c2.value, c2.suit⟩] =
        [⟨c2.value, c2.suit⟩, ⟨c1.value, c1.suit⟩] := by
      simp [List.insertionSort, List.orderedInsert, h12]
    rw [hsort]
    rw [checkRoyalFlush_none _ (by simp), checkStraightFlush_none _ (by simp),
      checkFourOfAKind_none _ (by simp), checkFullHouse_none _ (by simp),
      checkFlush_none _ (by simp), checkStraight_none _ (by simp),
      checkThreeOfAKind_none _ (by simp)]
    by_cases hv : c1.value = c2.value
    · rw [checkTwoPair_two_eq _ _ hv.symm, checkPair_two_eq _ _ hv.symm]
      rw [if_pos hv, if_pos hv]
      exact ⟨rfl, rfl⟩
    · rw [checkTwoPair_two_ne _ _ (Ne.symm hv), checkPair_two_ne _ _ (Ne.symm hv)]
      rw [if_neg hv, if_neg hv]
      exact ⟨rfl, by rw [show ((match (none : Option HandResult) with
        | some h => h
        | none => checkHighCard [(⟨c2.value, c2.suit⟩ : ECard), ⟨c1.value, c1.suit⟩]) :
          HandResult) = checkHighCard [⟨c2.value, c2.suit⟩, ⟨c1.value, c1.suit⟩] from rfl,
        checkHighCard_kickers]; simp⟩

/-- C10: the evaluator is total on short inputs: with fewer than five total
cards, `getBestFiveCardHand` skips the combination enumeration and evaluates
the supplied cards directly (no error path), the result always carries a
category rank in 1..10, and a 2-card preflop input (hole cards with an empty
community list) yields a pair or a high card with a correspondingly shorter
kicker list (1 or 2 kickers). -/
theorem spec_C10_short_input_total :
    (∀ (p c : List Card), (p ++ c).length < 5 →
        getBestFiveCardHand p c = some (evaluateHand (p ++ c))) ∧
    (∀ c1 c2 : Card,
        getBestFiveCardHand [c1, c2] [] = some (evaluateHand ([c1, c2] ++ [])) ∧
        (evaluateHand [c1, c2]).rank = (if c1.value = c2.value then 2 else 1) ∧
        (evaluateHand [c1, c2]).kickers.length =
          (if c1.value = c2.value then 1 else 2)) ∧
    (∀ cards : List Card,
        1 ≤ (evaluateHand cards).rank ∧ (evaluateHand cards).rank ≤ 10) := by
  have hshort : ∀ (p c : List Card), (p ++ c).length < 5 →
      getBestFiveCardHand p c = some (evaluateHand (p ++ c)) := by
    intro p c h
    unfold getBestFiveCardHand
    dsimp only
    rw [if_pos h]
  refine ⟨hshort, ?_, fun cards => evaluateHand_rank_bounds cards⟩
  intro c1 c2
  exact ⟨hshort [c1, c2] [] (by simp), evaluateHand_two c1 c2⟩

theorem spec_C10_witness :
    getBestFiveCardHand [(⟨14, Suit.spades⟩ : Card)] [⟨7, Suit.hearts⟩] =
      some (evaluateHand ([(⟨14, Suit.spades⟩ : Card)] ++ [⟨7, Suit.hearts⟩])) ∧
    (evaluateHand [(⟨9, Suit.clubs⟩ : Card), ⟨9, Suit.diamonds⟩]).rank =
      (if (⟨9, Suit.clubs⟩ : Card).value = (⟨9, Suit.diamonds⟩ : Card).value
        then 2 else 1) ∧
    1 ≤ (evaluateHand [(⟨2, Suit.hearts⟩ : Card)]).rank :=
  ⟨spec_C10_short_input_total.1 [⟨14, Suit.spades⟩] [⟨7, Suit.hearts⟩] (by decide),
   ((spec_C10_short_input_total.2.1 ⟨9, Suit.clubs⟩ ⟨9, Suit.diamonds⟩)).2.1,
   (spec_C10_short_input_total.2.2 [⟨2, Suit.hearts⟩]).1⟩
